import Mathlib

/-!
Verification development for the `@marianmeres/actor` message-driven actor
module (`src/actor.ts`).

The actor engine (`createActor`) is embedded as a small-step state machine.
JavaScript's single-threaded event loop runs code atomically between
suspension points; the only suspension point inside the engine is the
`await handler(state, message)` in `processMailbox`.  A configuration of the
model therefore captures the engine exactly at its quiescent points, and
every externally observable interleaving of `send` / `subscribe` /
`destroy` calls with handler completions is a list of `Action`s.  Handler
latency is modelled by where the `settle` action occurs in the action list,
so quantifying over action lists quantifies over all per-message latencies.

Suspended invocations of the drain loop are kept in a *list* (`pending`)
rather than an `Option`, so "at most one handler invocation in flight" is a
provable consequence of the `processing` re-entrancy guard, not a modelling
assumption.

An append-only event log records every observable occurrence (handler
invocations, promise settlements, state writes, subscriber deliveries),
which is what the temporal claims are stated over.
-/

namespace ActorModel

/-- A JavaScript `Error` object, reduced to the data the module observes. -/
structure JsError where
  message : String
deriving DecidableEq, Repr

/-- A thrown JavaScript value: either an `Error` instance or some other
value (kept as its string rendering, which is all `new Error(String(e))`
uses of it). -/
inductive Thrown where
  | errObj (e : JsError)
  | other (s : String)
deriving DecidableEq, Repr

/-- `error instanceof Error ? error : new Error(String(error))`
(src/actor.ts, catch clause of `processMailbox`). -/
def coerceError : Thrown → JsError
  | .errObj e => e
  | .other s => ⟨s⟩

/-- Observable events, recorded in program order. -/
inductive Event (S M R : Type) where
  /-- A `send(m)` call was made; `pid` identifies the promise it returned. -/
  | sendCalled (pid : Nat) (m : M)
  /-- The drain loop invoked `handler(state, m)` for the message with
  promise id `pid`. -/
  | handlerStart (pid : Nat) (m : M)
  /-- `resolve(response)` fired for promise `pid`. -/
  | resolveP (pid : Nat) (r : R)
  /-- `reject(err)` fired for promise `pid` from the drain loop. -/
  | rejectP (pid : Nat) (e : JsError)
  /-- `send` returned `Promise.reject(...)` because the actor was destroyed. -/
  | rejectImmediate (pid : Nat) (e : JsError)
  /-- The state cell was overwritten with `s` (`state = newState`). -/
  | stateWrite (s : S)
  /-- Subscriber `sub` was invoked with state `s` by a hub `publish`. -/
  | notify (sub : Nat) (s : S)
  /-- Subscriber `sub` was invoked with state `s` by `subscribe`'s
  immediate emission (`fn(state)`). -/
  | immediateEmit (sub : Nat) (s : S)
  /-- An exception from a subscriber callback reached the error sink
  (`_onSubscriberError`). -/
  | subSinkError (e : JsError)
  /-- The configured `onError(err, message)` callback was invoked. -/
  | onErrorCall (e : JsError) (m : M)
deriving DecidableEq, Repr

/-- One mailbox entry: `{ message, resolve, reject }`, with the
resolve/reject pair identified by the promise id `pid`. -/
structure QueuedMessage (M : Type) where
  message : M
  pid : Nat
deriving DecidableEq, Repr

instance {ε α : Type} [DecidableEq ε] [DecidableEq α] :
    DecidableEq (Except ε α) := fun x y =>
  match x, y with
  | .ok a, .ok b =>
      if h : a = b then .isTrue (h ▸ rfl)
      else .isFalse (fun he => h (Except.ok.inj he))
  | .error a, .error b =>
      if h : a = b then .isTrue (h ▸ rfl)
      else .isFalse (fun he => h (Except.error.inj he))
  | .ok _, .error _ => .isFalse (fun he => Except.noConfusion he)
  | .error _, .ok _ => .isFalse (fun he => Except.noConfusion he)

/-- One suspended invocation of the drain loop: it has shifted its entry,
called the handler, and is parked at `await`.  `result` is the outcome the
handler's promise will settle with. -/
structure InFlight (M R : Type) where
  pid : Nat
  message : M
  result : Except Thrown R
deriving DecidableEq, Repr

/-- The `createActor` options: `initialState`, `handler`, optional
`reducer`, optional `onError`.  The handler is embedded as a pure function
from the state and message to the eventual outcome of its promise. -/
structure ActorOptions (S M R : Type) where
  initialState : S
  handler : S → M → Except Thrown R
  reducer : Option (S → R → S)
  hasOnError : Bool

/-- A configuration of the actor at a quiescent point of the event loop:
the closed-over variables of `createActor` plus the suspended drain
invocations and the ghost event log. -/
structure Config (S M R : Type) where
  state : S
  processing : Bool
  destroyed : Bool
  mailbox : List (QueuedMessage M)
  pending : List (InFlight M R)
  subscribers : List Nat
  nextPid : Nat
  log : List (Event S M R)

/-- Behaviour of subscriber callbacks: `none` means the callback returns
normally, `some t` means it throws `t`.  (Callbacks are identified by the
`Nat` id they were registered under.) -/
def SubBehavior (S : Type) : Type := Nat → S → Option Thrown

variable {S M R : Type}

/-- Delivery of one published value to one subscriber.  Modelled from the
spec: the Notification Hub's `publish` invokes each callback and catches
any exception individually, surfacing it only via the error sink (§4.2;
the hub itself, `@marianmeres/pubsub`, is not part of this repository's
sources). -/
def deliverOne (beh : SubBehavior S) (s : S) (sub : Nat) : List (Event S M R) :=
  match beh sub s with
  | none => [.notify sub s]
  | some t => [.notify sub s, .subSinkError (coerceError t)]

/-- `notifySubscribers()`: `pubsub.publish(STATE_CHANGE_TOPIC, state)`.
Modelled from the spec: `publish` invokes every callback currently
registered, in registration order, passing the value (§4.2). -/
def notifySubscribers (beh : SubBehavior S) (c : Config S M R) : Config S M R :=
  { c with log := c.log ++ c.subscribers.flatMap (deliverOne beh c.state) }

/-- One iteration boundary of the `while (mailbox.length > 0 && !destroyed)`
loop in `processMailbox`: either shift the oldest entry, invoke the handler
and suspend at `await` (appending to `pending`), or exit the loop and clear
the `processing` flag. -/
def beginIteration (opts : ActorOptions S M R) (c : Config S M R) :
    Config S M R :=
  match c.mailbox, c.destroyed with
  | e :: rest, false =>
      { c with
        mailbox := rest
        pending := c.pending ++ [⟨e.pid, e.message, opts.handler c.state e.message⟩]
        log := c.log ++ [.handlerStart e.pid e.message] }
  | _, _ => { c with processing := false }

/-- `processMailbox()` up to its first suspension:
`if (processing || destroyed) return; processing = true;` then the first
loop iteration. -/
def processMailbox (opts : ActorOptions S M R) (c : Config S M R) :
    Config S M R :=
  if c.processing || c.destroyed then c
  else beginIteration opts { c with processing := true }

/-- The success path of a drain iteration after `await handler` resumes:
`if (reducer) { const newState = reducer(state, response);
if (newState !== state) { state = newState; notifySubscribers(); } }`. -/
def applyReducer [DecidableEq S] (opts : ActorOptions S M R)
    (beh : SubBehavior S) (c : Config S M R) (r : R) : Config S M R :=
  match opts.reducer with
  | some red =>
      let ns := red c.state r
      if ns = c.state then c
      else notifySubscribers beh { c with state := ns, log := c.log ++ [.stateWrite ns] }
  | none => c

/-- Resumption of a suspended drain iteration when the handler's promise
settles: run the rest of the `try` block (reducer, notification, resolve)
or the `catch` block (coerce, `onError?.`, reject), then continue the
`while` loop. -/
def resume [DecidableEq S] (opts : ActorOptions S M R) (beh : SubBehavior S)
    (c : Config S M R) (f : InFlight M R) : Config S M R :=
  match f.result with
  | .ok r =>
      let c1 := applyReducer opts beh c r
      beginIteration opts { c1 with log := c1.log ++ [.resolveP f.pid r] }
  | .error t =>
      beginIteration opts
        { c with
          log := c.log
            ++ (if opts.hasOnError then [.onErrorCall (coerceError t) f.message] else [])
            ++ [.rejectP f.pid (coerceError t)] }

/-- `send(message)`: reject immediately if destroyed, otherwise push a new
mailbox entry (with a fresh promise) and call `processMailbox()`. -/
def stepSend [DecidableEq S] (opts : ActorOptions S M R) (c : Config S M R)
    (m : M) : Config S M R :=
  if c.destroyed then
    { c with
      log := c.log ++ [.sendCalled c.nextPid m,
        .rejectImmediate c.nextPid ⟨"Actor has been destroyed"⟩]
      nextPid := c.nextPid + 1 }
  else
    processMailbox opts
      { c with
        mailbox := c.mailbox ++ [⟨m, c.nextPid⟩]
        nextPid := c.nextPid + 1
        log := c.log ++ [.sendCalled c.nextPid m] }

/-- The event loop settles the handler promise awaited by the `i`-th
suspended drain invocation (no-op if there is none). -/
def stepSettle [DecidableEq S] (opts : ActorOptions S M R)
    (beh : SubBehavior S) (c : Config S M R) (i : Nat) : Config S M R :=
  match c.pending[i]? with
  | none => c
  | some f => resume opts beh { c with pending := c.pending.eraseIdx i } f

/-- `subscribe(fn)`: register with the hub, then
`try { fn(state) } catch (e) { _onSubscriberError(...) }`, then return the
unsubscribe handle.  (Registration modelled from the spec, §4.2.) -/
def stepSubscribe (beh : SubBehavior S) (c : Config S M R) (sub : Nat) :
    Config S M R :=
  let c1 := { c with subscribers := c.subscribers ++ [sub] }
  match beh sub c1.state with
  | none => { c1 with log := c1.log ++ [.immediateEmit sub c1.state] }
  | some t =>
      { c1 with
        log := c1.log ++ [.immediateEmit sub c1.state,
          .subSinkError (coerceError t)] }

/-- Invoking the unsubscribe handle returned for registration `sub`.
Modelled from the spec: removes exactly this registration (§4.2). -/
def stepUnsubscribe (c : Config S M R) (sub : Nat) : Config S M R :=
  { c with subscribers := c.subscribers.erase sub }

/-- `destroy()`: `destroyed = true; mailbox.length = 0;
pubsub.unsubscribeAll();`. -/
def stepDestroy (c : Config S M R) : Config S M R :=
  { c with destroyed := true, mailbox := [], subscribers := [] }

/-- `getState()`. -/
def getState (c : Config S M R) : S := c.state

/-- External occurrences the event loop can process at a quiescent point. -/
inductive Action (M : Type) where
  | send (m : M)
  | settle (i : Nat)
  | subscribe (sub : Nat)
  | unsubscribe (sub : Nat)
  | destroy
deriving DecidableEq, Repr

/-- One step of the model. -/
def step [DecidableEq S] (opts : ActorOptions S M R) (beh : SubBehavior S)
    (c : Config S M R) : Action M → Config S M R
  | .send m => stepSend opts c m
  | .settle i => stepSettle opts beh c i
  | .subscribe sub => stepSubscribe beh c sub
  | .unsubscribe sub => stepUnsubscribe c sub
  | .destroy => stepDestroy c

/-- The configuration right after `createActor(options)` returns. -/
def initConfig (opts : ActorOptions S M R) : Config S M R :=
  ⟨opts.initialState, false, false, [], [], [], 0, []⟩

/-- Run a list of actions from the initial configuration. -/
def run [DecidableEq S] (opts : ActorOptions S M R) (beh : SubBehavior S)
    (acts : List (Action M)) : Config S M R :=
  acts.foldl (fun c a => step opts beh c a) (initConfig opts)

/-! ### Log projections -/

/-- The message of a `handlerStart` event. -/
def startedProj : Event S M R → Option M
  | .handlerStart _ m => some m
  | _ => none

/-- Messages for which the handler has been invoked, in invocation order. -/
def startedMsgs (l : List (Event S M R)) : List M := l.filterMap startedProj

/-- The promise id of a `handlerStart` event. -/
def startedPidProj : Event S M R → Option Nat
  | .handlerStart pid _ => some pid
  | _ => none

/-- Promise ids for which the handler has been invoked, in invocation
order. -/
def startedPids (l : List (Event S M R)) : List Nat :=
  l.filterMap startedPidProj

/-- The message of a `sendCalled` event. -/
def sentProj : Event S M R → Option M
  | .sendCalled _ m => some m
  | _ => none

/-- Messages passed to `send`, in call order. -/
def sentMsgs (l : List (Event S M R)) : List M := l.filterMap sentProj

/-- The messages of the `send` actions of an action list, in order. -/
def sentOf : List (Action M) → List M :=
  List.filterMap fun a => match a with
    | .send m => some m
    | _ => none

/-- Whether an event settles promise `pid` (resolve, drain reject, or the
immediate destroyed-actor reject). -/
def settlesPid (pid : Nat) : Event S M R → Bool
  | .resolveP p _ => p == pid
  | .rejectP p _ => p == pid
  | .rejectImmediate p _ => p == pid
  | _ => false

/-- How many times promise `pid` has settled. -/
def promiseSettleCount (pid : Nat) (l : List (Event S M R)) : Nat :=
  l.countP (settlesPid pid)

/-- Project an event onto the start/settle trace of the drain loop:
`(true, pid)` for a handler invocation, `(false, pid)` for the settlement
of that invocation's promise by the drain loop. -/
def traceTag : Event S M R → Option (Bool × Nat)
  | .handlerStart pid _ => some (true, pid)
  | .resolveP pid _ => some (false, pid)
  | .rejectP pid _ => some (false, pid)
  | _ => none

/-- The start/settle trace of the drain loop, in program order. -/
def traceOf (l : List (Event S M R)) : List (Bool × Nat) :=
  l.filterMap traceTag

/-- The fully serialized trace of `d` completed drain iterations:
start 0, settle 0, start 1, settle 1, ... -/
def fullTrace (d : Nat) : List (Bool × Nat) :=
  (List.range d).flatMap fun i => [(true, i), (false, i)]

/-- Values of `notify` (hub delivery) events, in delivery order. -/
def notifyProj : Event S M R → Option (Nat × S)
  | .notify sub s => some (sub, s)
  | _ => none

/-- The hub deliveries recorded in the log, in order. -/
def notifyEvents (l : List (Event S M R)) : List (Nat × S) :=
  l.filterMap notifyProj

/-- Values written to the state cell, in write order. -/
def stateWriteProj : Event S M R → Option S
  | .stateWrite s => some s
  | _ => none

/-- The state-cell writes recorded in the log, in order. -/
def stateWrites (l : List (Event S M R)) : List S :=
  l.filterMap stateWriteProj

/-- Whether an event is a subscriber invocation by `subscribe`'s immediate
emission. -/
def isEmit : Event S M R → Bool
  | .immediateEmit _ _ => true
  | _ => false

/-! ### Projection append lemmas -/

theorem startedMsgs_append (l₁ l₂ : List (Event S M R)) :
    startedMsgs (l₁ ++ l₂) = startedMsgs l₁ ++ startedMsgs l₂ :=
  List.filterMap_append l₁ l₂ _

theorem startedPids_append (l₁ l₂ : List (Event S M R)) :
    startedPids (l₁ ++ l₂) = startedPids l₁ ++ startedPids l₂ :=
  List.filterMap_append l₁ l₂ _

theorem sentMsgs_append (l₁ l₂ : List (Event S M R)) :
    sentMsgs (l₁ ++ l₂) = sentMsgs l₁ ++ sentMsgs l₂ :=
  List.filterMap_append l₁ l₂ _

theorem traceOf_append (l₁ l₂ : List (Event S M R)) :
    traceOf (l₁ ++ l₂) = traceOf l₁ ++ traceOf l₂ :=
  List.filterMap_append l₁ l₂ _

theorem notifyEvents_append (l₁ l₂ : List (Event S M R)) :
    notifyEvents (l₁ ++ l₂) = notifyEvents l₁ ++ notifyEvents l₂ :=
  List.filterMap_append l₁ l₂ _

theorem stateWrites_append (l₁ l₂ : List (Event S M R)) :
    stateWrites (l₁ ++ l₂) = stateWrites l₁ ++ stateWrites l₂ :=
  List.filterMap_append l₁ l₂ _

theorem promiseSettleCount_append (pid : Nat) (l₁ l₂ : List (Event S M R)) :
    promiseSettleCount pid (l₁ ++ l₂)
      = promiseSettleCount pid l₁ + promiseSettleCount pid l₂ :=
  List.countP_append _ l₁ l₂

theorem fullTrace_succ (n : Nat) :
    fullTrace (n + 1) = fullTrace n ++ [(true, n), (false, n)] := by
  simp [fullTrace, List.range_succ]

theorem startedMsgs_nil : startedMsgs ([] : List (Event S M R)) = [] := rfl

theorem startedMsgs_cons (e : Event S M R) (l : List (Event S M R)) :
    startedMsgs (e :: l) = (startedProj e).toList ++ startedMsgs l := by
  cases h : startedProj e <;>
    simp [startedMsgs, List.filterMap_cons, h]

theorem startedPids_nil : startedPids ([] : List (Event S M R)) = [] := rfl

theorem startedPids_cons (e : Event S M R) (l : List (Event S M R)) :
    startedPids (e :: l) = (startedPidProj e).toList ++ startedPids l := by
  cases h : startedPidProj e <;>
    simp [startedPids, List.filterMap_cons, h]

theorem sentMsgs_nil : sentMsgs ([] : List (Event S M R)) = [] := rfl

theorem sentMsgs_cons (e : Event S M R) (l : List (Event S M R)) :
    sentMsgs (e :: l) = (sentProj e).toList ++ sentMsgs l := by
  cases h : sentProj e <;>
    simp [sentMsgs, List.filterMap_cons, h]

theorem traceOf_nil : traceOf ([] : List (Event S M R)) = [] := rfl

theorem traceOf_cons (e : Event S M R) (l : List (Event S M R)) :
    traceOf (e :: l) = (traceTag e).toList ++ traceOf l := by
  cases h : traceTag e <;>
    simp [traceOf, List.filterMap_cons, h]

theorem notifyEvents_nil : notifyEvents ([] : List (Event S M R)) = [] :=
  rfl

theorem notifyEvents_cons (e : Event S M R) (l : List (Event S M R)) :
    notifyEvents (e :: l) = (notifyProj e).toList ++ notifyEvents l := by
  cases h : notifyProj e <;>
    simp [notifyEvents, List.filterMap_cons, h]

theorem stateWrites_nil : stateWrites ([] : List (Event S M R)) = [] := rfl

theorem stateWrites_cons (e : Event S M R) (l : List (Event S M R)) :
    stateWrites (e :: l) = (stateWriteProj e).toList ++ stateWrites l := by
  cases h : stateWriteProj e <;>
    simp [stateWrites, List.filterMap_cons, h]

theorem promiseSettleCount_nil (pid : Nat) :
    promiseSettleCount pid ([] : List (Event S M R)) = 0 := rfl

theorem promiseSettleCount_cons (pid : Nat) (e : Event S M R)
    (l : List (Event S M R)) :
    promiseSettleCount pid (e :: l)
      = (if settlesPid pid e then 1 else 0) + promiseSettleCount pid l := by
  cases h : settlesPid pid e <;>
    simp [promiseSettleCount, List.countP_cons, h, Nat.add_comm]

/-! ### Concrete actors used in examples, witnesses and counterexamples -/

/-- A concrete actor: `initialState: 0`, an (async) handler that always
resolves with `1`, reducer `(_, r) => r`, no `onError`. -/
def natOpts : ActorOptions Nat Nat Nat :=
  ⟨0, fun _ _ => .ok 1, some (fun _ r => r), false⟩

/-- Subscriber callbacks that never throw. -/
def quietBeh : SubBehavior Nat := fun _ _ => none

/-- Subscriber callbacks that always throw the non-`Error` value
`"boom"`. -/
def throwBeh : SubBehavior Nat := fun _ _ => some (.other "boom")

/-- A concrete actor whose handler throws `Error("Failed")` on the message
`"fail"` and resolves with `state + 1` otherwise; reducer `(_, r) => r`;
`onError` configured. -/
def failOpts : ActorOptions Nat String Nat :=
  ⟨0,
    fun s m => if m = "fail" then .error (.errObj ⟨"Failed"⟩) else .ok (s + 1),
    some (fun _ r => r), true⟩

/-! ### Theorems for the claims -/

/-- C3: after `destroy()` returns the state is claimed frozen, including
when a handler invocation was still in flight at the moment `destroy()`
was called.  The code violates this: `send` a message (the drain loop
suspends at `await handler`), call `destroy()` (state still `0`,
`destroyed` set), then let the handler settle — the resumed drain
iteration still runs the reducer and writes the state cell (`0 → 1`), so
`getState()` changes after destruction. -/
theorem destroy_inflight_still_writes_state :
    (run natOpts quietBeh [.send 0, .destroy]).destroyed = true
    ∧ getState (run natOpts quietBeh [.send 0, .destroy]) = 0
    ∧ getState (run natOpts quietBeh [.send 0, .destroy, .settle 0]) = 1
    ∧ stateWrites (run natOpts quietBeh [.send 0, .destroy, .settle 0]).log
        = [1] := by
  decide

/-- C8 counterexample: the rejection produced by `send` after `destroy()`
carries the message `"Actor has been destroyed"` (src/actor.ts), not the
claimed `"actor has been destroyed"`.  Everything else about the claim
holds (immediate rejection, nothing enqueued). -/
theorem destroyed_send_error_message_case :
    (run natOpts quietBeh [.destroy, .send 7]).log
      = [.sendCalled 0 7, .rejectImmediate 0 ⟨"Actor has been destroyed"⟩]
    ∧ (run natOpts quietBeh [.destroy, .send 7]).mailbox = []
    ∧ "Actor has been destroyed" ≠ "actor has been destroyed" := by
  decide

/-- C8 (amended): if `send(message)` is called after `destroy()`, it
immediately produces a rejected result carrying the fixed error
`"Actor has been destroyed"`, and the message is not enqueued (the whole
step only appends the call and rejection events and allocates the promise
id; mailbox, state, pending and subscribers are untouched). -/
theorem destroyed_send_rejects_immediately [DecidableEq S]
    (opts : ActorOptions S M R) (c : Config S M R) (m : M)
    (h : c.destroyed = true) :
    stepSend opts c m =
      { c with
        log := c.log ++ [.sendCalled c.nextPid m,
          .rejectImmediate c.nextPid ⟨"Actor has been destroyed"⟩]
        nextPid := c.nextPid + 1 } := by
  simp [stepSend, h]

/-- Witness for `destroyed_send_rejects_immediately` at a concrete
destroyed actor. -/
theorem destroyed_send_rejects_immediately_witness :
    stepSend natOpts (run natOpts quietBeh [.destroy]) 7 =
      { run natOpts quietBeh [.destroy] with
        log := (run natOpts quietBeh [.destroy]).log
          ++ [.sendCalled (run natOpts quietBeh [.destroy]).nextPid 7,
            .rejectImmediate (run natOpts quietBeh [.destroy]).nextPid
              ⟨"Actor has been destroyed"⟩]
        nextPid := (run natOpts quietBeh [.destroy]).nextPid + 1 } :=
  destroyed_send_rejects_immediately natOpts (run natOpts quietBeh [.destroy])
    7 (by decide)

/-! ### Component lemmas about the drain loop -/

theorem run_append_one [DecidableEq S] (opts : ActorOptions S M R)
    (beh : SubBehavior S) (acts : List (Action M)) (a : Action M) :
    run opts beh (acts ++ [a]) = step opts beh (run opts beh acts) a := by
  simp [run, List.foldl_append]

theorem beginIteration_state (opts : ActorOptions S M R) (c : Config S M R) :
    (beginIteration opts c).state = c.state := by
  rcases h : c.mailbox with _ | ⟨e, rest⟩ <;> cases hd : c.destroyed <;>
    simp [beginIteration, h, hd]

theorem notifyEvents_beginIteration (opts : ActorOptions S M R)
    (c : Config S M R) :
    notifyEvents (beginIteration opts c).log = notifyEvents c.log := by
  rcases h : c.mailbox with _ | ⟨e, rest⟩ <;> cases hd : c.destroyed <;>
    simp [beginIteration, h, hd, notifyEvents_append, notifyEvents, notifyProj]

theorem stateWrites_beginIteration (opts : ActorOptions S M R)
    (c : Config S M R) :
    stateWrites (beginIteration opts c).log = stateWrites c.log := by
  rcases h : c.mailbox with _ | ⟨e, rest⟩ <;> cases hd : c.destroyed <;>
    simp [beginIteration, h, hd, stateWrites_append, stateWrites,
      stateWriteProj]

theorem notifyEvents_deliver (beh : SubBehavior S) (s : S)
    (subs : List Nat) :
    notifyEvents ((subs.flatMap (deliverOne beh s)) : List (Event S M R))
      = subs.map (fun sub => (sub, s)) := by
  induction subs with
  | nil => rfl
  | cons a l ih =>
      cases h : beh a s <;>
        simpa [List.flatMap_cons, notifyEvents_append, deliverOne, h,
          notifyEvents, notifyProj] using ih

/-- C9: an exception thrown by a subscriber callback during the immediate
post-subscribe invocation is caught (`try`/`catch` in `subscribe`) and
routed to the error sink `_onSubscriberError`; the registration has
still been added (so `subscribe` still returns a working unsubscribe
handle) and nothing else of the actor changed. -/
theorem subscriber_error_isolated (beh : SubBehavior S) (c : Config S M R)
    (sub : Nat) (t : Thrown) (h : beh sub c.state = some t) :
    (stepSubscribe beh c sub).subscribers = c.subscribers ++ [sub]
    ∧ (stepSubscribe beh c sub).log
      = c.log ++ [.immediateEmit sub c.state, .subSinkError (coerceError t)]
    ∧ (stepSubscribe beh c sub).state = c.state
    ∧ (stepSubscribe beh c sub).mailbox = c.mailbox
    ∧ (stepSubscribe beh c sub).destroyed = c.destroyed := by
  simp [stepSubscribe, h]

/-- Witness for `subscriber_error_isolated`: a freshly created actor and a
callback that throws the non-`Error` value `"boom"`. -/
theorem subscriber_error_isolated_witness :
    (stepSubscribe throwBeh (initConfig natOpts) 5).subscribers
        = (initConfig natOpts).subscribers ++ [5]
    ∧ (stepSubscribe throwBeh (initConfig natOpts) 5).log
      = (initConfig natOpts).log
        ++ [.immediateEmit 5 (initConfig natOpts).state,
          .subSinkError (coerceError (.other "boom"))]
    ∧ (stepSubscribe throwBeh (initConfig natOpts) 5).state
        = (initConfig natOpts).state
    ∧ (stepSubscribe throwBeh (initConfig natOpts) 5).mailbox
        = (initConfig natOpts).mailbox
    ∧ (stepSubscribe throwBeh (initConfig natOpts) 5).destroyed
        = (initConfig natOpts).destroyed :=
  subscriber_error_isolated throwBeh (initConfig natOpts) 5 (.other "boom")
    rfl

/-- C6: `subscribe(fn)` invokes `fn` synchronously exactly once before
returning, with the state current as of the `subscribe` call: after any
run, appending a `subscribe` appends to the log exactly one immediate
emission carrying `getState` at that moment (followed only by a possible
sink-error event if the callback threw, never by another emission), and
registers the subscriber. -/
theorem subscribe_immediate_emission [DecidableEq S]
    (opts : ActorOptions S M R) (beh : SubBehavior S)
    (acts : List (Action M)) (sub : Nat) :
    ∃ tl,
      (run opts beh (acts ++ [.subscribe sub])).log
        = (run opts beh acts).log
          ++ .immediateEmit sub (getState (run opts beh acts)) :: tl
      ∧ (∀ e ∈ tl, isEmit e = false)
      ∧ (run opts beh (acts ++ [.subscribe sub])).subscribers
        = (run opts beh acts).subscribers ++ [sub] := by
  rw [run_append_one]
  cases h : beh sub (run opts beh acts).state with
  | none =>
      exact ⟨[], by simp [step, stepSubscribe, h, getState], by simp,
        by simp [step, stepSubscribe, h]⟩
  | some t =>
      refine ⟨[.subSinkError (coerceError t)],
        by simp [step, stepSubscribe, h, getState], ?_,
        by simp [step, stepSubscribe, h]⟩
      intro e he
      simp at he
      simp [he, isEmit]

/-- Witness for `subscribe_immediate_emission` on a freshly created
actor. -/
theorem subscribe_immediate_emission_witness :
    ∃ tl, (run natOpts quietBeh ([] ++ [.subscribe 7])).log
        = (run natOpts quietBeh []).log
          ++ .immediateEmit 7 (getState (run natOpts quietBeh [])) :: tl
      ∧ (∀ e ∈ tl, isEmit e = false)
      ∧ (run natOpts quietBeh ([] ++ [.subscribe 7])).subscribers
        = (run natOpts quietBeh []).subscribers ++ [7] :=
  subscribe_immediate_emission natOpts quietBeh [] 7

theorem stateWrites_deliver (beh : SubBehavior S) (s : S)
    (subs : List Nat) :
    stateWrites ((subs.flatMap (deliverOne beh s)) : List (Event S M R))
      = [] := by
  induction subs with
  | nil => rfl
  | cons a l ih =>
      cases h : beh a s <;>
        simpa [List.flatMap_cons, stateWrites_append, deliverOne, h,
          stateWrites, stateWriteProj] using ih

/-- C7: if the handler fails while processing one message, that message's
promise is rejected with the thrown error coerced to an `Error` object,
`onError` — if configured — runs synchronously before the rejection, the
state cell is untouched, and the drain loop goes on to invoke the handler
for the next queued message. -/
theorem handler_failure_isolated [DecidableEq S]
    (opts : ActorOptions S M R) (beh : SubBehavior S) (c : Config S M R)
    (f : InFlight M R) (t : Thrown)
    (hp : c.pending = [f]) (hres : f.result = .error t) :
    (stepSettle opts beh c 0).state = c.state
    ∧ (stepSettle opts beh c 0).log
      = c.log
        ++ (if opts.hasOnError
            then [.onErrorCall (coerceError t) f.message] else [])
        ++ [.rejectP f.pid (coerceError t)]
        ++ (match c.mailbox, c.destroyed with
            | e :: _, false => [.handlerStart e.pid e.message]
            | _, _ => [])
    ∧ (∀ e rest, c.mailbox = e :: rest → c.destroyed = false →
        (stepSettle opts beh c 0).pending
            = [⟨e.pid, e.message, opts.handler c.state e.message⟩]
        ∧ (stepSettle opts beh c 0).mailbox = rest) := by
  have h0 : c.pending[0]? = some f := by rw [hp]; rfl
  rcases hmb : c.mailbox with _ | ⟨e, rest⟩ <;> cases hd : c.destroyed <;>
    simp [stepSettle, h0, hp, resume, hres, beginIteration, hmb, hd]

/-- Witness for `handler_failure_isolated`: the handler throws
`Error("Failed")` on `"fail"` while `"ok"` is queued behind it; the failed
settle leaves state at `0` and dispatches `"ok"`. -/
theorem handler_failure_isolated_witness :
    (stepSettle failOpts quietBeh
        (run failOpts quietBeh [.send "fail", .send "ok"]) 0).state = 0
    ∧ (stepSettle failOpts quietBeh
        (run failOpts quietBeh [.send "fail", .send "ok"]) 0).pending
      = [⟨1, "ok", .ok 1⟩]
    ∧ (stepSettle failOpts quietBeh
        (run failOpts quietBeh [.send "fail", .send "ok"]) 0).mailbox
      = [] := by
  have h := handler_failure_isolated failOpts quietBeh
    (run failOpts quietBeh [.send "fail", .send "ok"])
    ⟨0, "fail", .error (.errObj ⟨"Failed"⟩)⟩ (.errObj ⟨"Failed"⟩)
    (by decide) rfl
  have h3 := h.2.2 ⟨"ok", 1⟩ [] (by decide) (by decide)
  refine ⟨?_, ?_, h3.2⟩
  · rw [h.1]; decide
  · rw [h3.1]; decide

/-- C5: when a message settles successfully on an actor with a reducer:
if the reducer's output equals the prior state (the `newState !== state`
test fails) the state cell is untouched and no subscriber is notified; if
it differs, the state cell is replaced with it and every currently
registered subscriber is notified exactly once, in registration order,
with the new value. -/
theorem reducer_change_detection [DecidableEq S]
    (opts : ActorOptions S M R) (beh : SubBehavior S) (c : Config S M R)
    (f : InFlight M R) (r : R) (red : S → R → S)
    (hp : c.pending = [f]) (hres : f.result = .ok r)
    (hred : opts.reducer = some red) :
    (red c.state r = c.state →
      (stepSettle opts beh c 0).state = c.state
      ∧ notifyEvents (stepSettle opts beh c 0).log = notifyEvents c.log
      ∧ stateWrites (stepSettle opts beh c 0).log = stateWrites c.log)
    ∧ (red c.state r ≠ c.state →
      (stepSettle opts beh c 0).state = red c.state r
      ∧ stateWrites (stepSettle opts beh c 0).log
        = stateWrites c.log ++ [red c.state r]
      ∧ notifyEvents (stepSettle opts beh c 0).log
        = notifyEvents c.log
          ++ c.subscribers.map (fun sub => (sub, red c.state r))) := by
  have h0 : c.pending[0]? = some f := by rw [hp]; rfl
  have hstep : stepSettle opts beh c 0
      = resume opts beh { c with pending := [] } f := by
    simp [stepSettle, h0, hp]
  constructor
  · intro heq
    rw [hstep]
    simp [resume, hres, applyReducer, hred, heq, beginIteration_state,
      notifyEvents_beginIteration, stateWrites_beginIteration,
      notifyEvents_append, stateWrites_append, notifyEvents_cons,
      notifyEvents_nil, stateWrites_cons, stateWrites_nil, notifyProj,
      stateWriteProj]
  · intro hne
    rw [hstep]
    simp [resume, hres, applyReducer, hred, hne, notifySubscribers,
      beginIteration_state, notifyEvents_beginIteration,
      stateWrites_beginIteration, notifyEvents_append, stateWrites_append,
      notifyEvents_deliver, stateWrites_deliver, notifyEvents_cons,
      notifyEvents_nil, stateWrites_cons, stateWrites_nil, notifyProj,
      stateWriteProj]

/-- Witness for `reducer_change_detection`: one subscriber, reducer output
`1` differs from prior state `0`, so the subscriber is notified exactly
once with `1`. -/
theorem reducer_change_detection_witness :
    (stepSettle natOpts quietBeh
        (run natOpts quietBeh [.subscribe 0, .send 5]) 0).state = 1
    ∧ notifyEvents (stepSettle natOpts quietBeh
        (run natOpts quietBeh [.subscribe 0, .send 5]) 0).log
      = [(0, 1)] := by
  have h := (reducer_change_detection natOpts quietBeh
    (run natOpts quietBeh [.subscribe 0, .send 5]) ⟨0, 5, .ok 1⟩ 1
    (fun _ r => r) (by decide) rfl rfl).2 (by decide)
  refine ⟨by rw [h.1], by rw [h.2.2]; decide⟩

theorem processMailbox_state (opts : ActorOptions S M R)
    (c : Config S M R) :
    (processMailbox opts c).state = c.state := by
  by_cases hcd : (c.processing || c.destroyed) = true <;>
    simp [processMailbox, hcd, beginIteration_state]

theorem notifyEvents_processMailbox (opts : ActorOptions S M R)
    (c : Config S M R) :
    notifyEvents (processMailbox opts c).log = notifyEvents c.log := by
  by_cases hcd : (c.processing || c.destroyed) = true <;>
    simp [processMailbox, hcd, notifyEvents_beginIteration]

theorem stateWrites_processMailbox (opts : ActorOptions S M R)
    (c : Config S M R) :
    stateWrites (processMailbox opts c).log = stateWrites c.log := by
  by_cases hcd : (c.processing || c.destroyed) = true <;>
    simp [processMailbox, hcd, stateWrites_beginIteration]

/-- The frame property of an actor built with the `reducer` option
omitted: the state cell and the notification machinery are never
touched. -/
def ReducerlessFrame (opts : ActorOptions S M R) (c : Config S M R) :
    Prop :=
  c.state = opts.initialState
  ∧ stateWrites c.log = [] ∧ notifyEvents c.log = []

theorem reducerlessFrame_step [DecidableEq S] (opts : ActorOptions S M R)
    (beh : SubBehavior S) (c : Config S M R) (a : Action M)
    (h : opts.reducer = none) (hc : ReducerlessFrame opts c) :
    ReducerlessFrame opts (step opts beh c a) := by
  obtain ⟨h1, h2, h3⟩ := hc
  cases a with
  | send m =>
      by_cases hd : c.destroyed = true
      · refine ⟨?_, ?_, ?_⟩ <;>
          simp [step, stepSend, hd, h1, h2, h3, stateWrites_append,
            notifyEvents_append, stateWrites_cons, stateWrites_nil,
            notifyEvents_cons, notifyEvents_nil, stateWriteProj, notifyProj]
      · refine ⟨?_, ?_, ?_⟩ <;>
          simp [step, stepSend, hd, processMailbox_state,
            notifyEvents_processMailbox, stateWrites_processMailbox, h1, h2,
            h3, stateWrites_append, notifyEvents_append, stateWrites_cons,
            stateWrites_nil, notifyEvents_cons, notifyEvents_nil,
            stateWriteProj, notifyProj]
  | settle i =>
      cases hset : c.pending[i]? with
      | none => exact ⟨by simp [step, stepSettle, hset, h1],
          by simp [step, stepSettle, hset, h2],
          by simp [step, stepSettle, hset, h3]⟩
      | some f =>
          cases hr : f.result with
          | ok r =>
              refine ⟨?_, ?_, ?_⟩ <;>
                simp [step, stepSettle, hset, resume, hr, applyReducer, h,
                  beginIteration_state, notifyEvents_beginIteration,
                  stateWrites_beginIteration, h1, h2, h3,
                  stateWrites_append, notifyEvents_append, stateWrites_cons,
                  stateWrites_nil, notifyEvents_cons, notifyEvents_nil,
                  stateWriteProj, notifyProj]
          | error t =>
              cases ho : opts.hasOnError <;>
                refine ⟨?_, ?_, ?_⟩ <;>
                  simp [step, stepSettle, hset, resume, hr, ho,
                    beginIteration_state, notifyEvents_beginIteration,
                    stateWrites_beginIteration, h1, h2, h3,
                    stateWrites_append, notifyEvents_append,
                    stateWrites_cons, stateWrites_nil, notifyEvents_cons,
                    notifyEvents_nil, stateWriteProj, notifyProj]
  | subscribe sub =>
      cases hb : beh sub c.state <;> rw [h1] at hb <;>
        refine ⟨?_, ?_, ?_⟩ <;>
          simp [step, stepSubscribe, hb, h1, h2, h3, stateWrites_append,
            notifyEvents_append, stateWrites_cons, stateWrites_nil,
            notifyEvents_cons, notifyEvents_nil, stateWriteProj, notifyProj]
  | unsubscribe sub => exact ⟨h1, h2, h3⟩
  | destroy => exact ⟨h1, h2, h3⟩

theorem reducerlessFrame_run [DecidableEq S] (opts : ActorOptions S M R)
    (beh : SubBehavior S) (acts : List (Action M)) (c : Config S M R)
    (h : opts.reducer = none) (hc : ReducerlessFrame opts c) :
    ReducerlessFrame opts
      (acts.foldl (fun c a => step opts beh c a) c) := by
  induction acts generalizing c with
  | nil => exact hc
  | cons a l ih =>
      exact ih _ (reducerlessFrame_step opts beh c a h hc)

/-- C10: for an actor created with the `reducer` option omitted, the state
never changes: after every sequence of operations (sends whose handlers
succeed or fail, settlements, subscriptions, destruction), `getState()`
still returns the initial state, the state cell was never written, and no
subscriber was ever notified beyond its immediate post-subscribe
emission. -/
theorem no_reducer_state_frame [DecidableEq S] (opts : ActorOptions S M R)
    (beh : SubBehavior S) (acts : List (Action M))
    (h : opts.reducer = none) :
    getState (run opts beh acts) = opts.initialState
    ∧ stateWrites (run opts beh acts).log = []
    ∧ notifyEvents (run opts beh acts).log = [] :=
  reducerlessFrame_run opts beh acts (initConfig opts) h ⟨rfl, rfl, rfl⟩

/-- A concrete actor with the `reducer` option omitted, whose handler
fails on the message `0` and succeeds otherwise. -/
def noRedOpts : ActorOptions Nat Nat Nat :=
  ⟨0, fun _ m => if m = 0 then .error (.other "boom") else .ok m, none,
    false⟩

/-- Witness for `no_reducer_state_frame`: a subscriber plus one failing
and one succeeding message; the state is still `0` and nothing beyond the
immediate emission was delivered. -/
theorem no_reducer_state_frame_witness :
    getState (run noRedOpts quietBeh
        [.subscribe 0, .send 0, .settle 0, .send 3, .settle 0])
      = noRedOpts.initialState
    ∧ stateWrites (run noRedOpts quietBeh
        [.subscribe 0, .send 0, .settle 0, .send 3, .settle 0]).log = []
    ∧ notifyEvents (run noRedOpts quietBeh
        [.subscribe 0, .send 0, .settle 0, .send 3, .settle 0]).log = [] :=
  no_reducer_state_frame noRedOpts quietBeh
    [.subscribe 0, .send 0, .settle 0, .send 3, .settle 0] rfl

/-! ### The global invariant of reachable configurations -/

/-- Number of handler invocations recorded in a log. -/
def dcount (l : List (Event S M R)) : Nat := (startedPids l).length

theorem dcount_append (l₁ l₂ : List (Event S M R)) :
    dcount (l₁ ++ l₂) = dcount l₁ + dcount l₂ := by
  simp [dcount, startedPids_append]

theorem startedMsgs_deliver (beh : SubBehavior S) (s : S)
    (subs : List Nat) :
    startedMsgs ((subs.flatMap (deliverOne beh s)) : List (Event S M R))
      = [] := by
  induction subs with
  | nil => rfl
  | cons a l ih =>
      cases h : beh a s <;>
        simpa [List.flatMap_cons, startedMsgs_append, deliverOne, h,
          startedMsgs, startedProj] using ih

theorem startedPids_deliver (beh : SubBehavior S) (s : S)
    (subs : List Nat) :
    startedPids ((subs.flatMap (deliverOne beh s)) : List (Event S M R))
      = [] := by
  induction subs with
  | nil => rfl
  | cons a l ih =>
      cases h : beh a s <;>
        simpa [List.flatMap_cons, startedPids_append, deliverOne, h,
          startedPids, startedPidProj] using ih

theorem sentMsgs_deliver (beh : SubBehavior S) (s : S) (subs : List Nat) :
    sentMsgs ((subs.flatMap (deliverOne beh s)) : List (Event S M R))
      = [] := by
  induction subs with
  | nil => rfl
  | cons a l ih =>
      cases h : beh a s <;>
        simpa [List.flatMap_cons, sentMsgs_append, deliverOne, h, sentMsgs,
          sentProj] using ih

theorem traceOf_deliver (beh : SubBehavior S) (s : S) (subs : List Nat) :
    traceOf ((subs.flatMap (deliverOne beh s)) : List (Event S M R))
      = [] := by
  induction subs with
  | nil => rfl
  | cons a l ih =>
      cases h : beh a s <;>
        simpa [List.flatMap_cons, traceOf_append, deliverOne, h, traceOf,
          traceTag] using ih

theorem promiseSettleCount_deliver (pid : Nat) (beh : SubBehavior S)
    (s : S) (subs : List Nat) :
    promiseSettleCount pid
      ((subs.flatMap (deliverOne beh s)) : List (Event S M R)) = 0 := by
  induction subs with
  | nil => rfl
  | cons a l ih =>
      cases h : beh a s <;>
        simpa [List.flatMap_cons, promiseSettleCount_append, deliverOne, h,
          promiseSettleCount, List.countP_cons, settlesPid] using ih

/-- The part of the reachability invariant that does not mention the
`processing` flag. -/
structure InvCore (c : Config S M R) : Prop where
  pend_len : c.pending.length ≤ 1
  pend_pid : ∀ f ∈ c.pending, f.pid + 1 = dcount c.log
  started_range : startedPids c.log = List.range (dcount c.log)
  mailbox_pids : c.mailbox.map QueuedMessage.pid
      = List.range' (dcount c.log) c.mailbox.length
  next_eq : c.destroyed = false →
      c.nextPid = dcount c.log + c.mailbox.length
  next_ge : dcount c.log + c.mailbox.length ≤ c.nextPid
  destroyed_mb : c.destroyed = true → c.mailbox = []
  trace_nil : c.pending = [] → traceOf c.log = fullTrace (dcount c.log)
  trace_one : ∀ f ∈ c.pending,
      traceOf c.log = fullTrace f.pid ++ [(true, f.pid)]
  fifo_eq : c.destroyed = false →
      startedMsgs c.log ++ c.mailbox.map QueuedMessage.message
        = sentMsgs c.log
  fifo_le : startedMsgs c.log ++ c.mailbox.map QueuedMessage.message
      <+: sentMsgs c.log
  settle_once : ∀ pid, promiseSettleCount pid c.log ≤ 1
  unsettled_mb : ∀ e ∈ c.mailbox, promiseSettleCount e.pid c.log = 0
  unsettled_pend : ∀ f ∈ c.pending, promiseSettleCount f.pid c.log = 0
  fresh_settle : ∀ pid, c.nextPid ≤ pid →
      promiseSettleCount pid c.log = 0
  started_settled : ∀ pid ∈ startedPids c.log,
      (∃ f ∈ c.pending, f.pid = pid)
        ∨ promiseSettleCount pid c.log = 1

/-- The reachability invariant: `InvCore` plus the re-entrancy guard flag
being exactly "a drain invocation is suspended". -/
structure Inv (c : Config S M R) extends InvCore c : Prop where
  proc_iff : c.processing = true ↔ c.pending ≠ []

theorem inv_beginIteration (opts : ActorOptions S M R) (c : Config S M R)
    (hcore : InvCore c) (hpend : c.pending = [])
    (hproc : c.processing = true) : Inv (beginIteration opts c) := by
  obtain ⟨pend_len, pend_pid, started_range, mailbox_pids, next_eq,
    next_ge, destroyed_mb, trace_nil, trace_one, fifo_eq, fifo_le,
    settle_once, unsettled_mb, unsettled_pend, fresh_settle,
    started_settled⟩ := hcore
  rcases hmb : c.mailbox with _ | ⟨e, rest⟩
  · have hb : beginIteration opts c = { c with processing := false } := by
      simp [beginIteration, hmb]
    rw [hb]
    exact ⟨⟨pend_len, pend_pid, started_range, mailbox_pids, next_eq,
      next_ge, destroyed_mb, trace_nil, trace_one, fifo_eq, fifo_le,
      settle_once, unsettled_mb, unsettled_pend, fresh_settle,
      started_settled⟩, by simp [hpend]⟩
  · cases hd : c.destroyed
    case true =>
      have hb : beginIteration opts c = { c with processing := false } := by
        simp [beginIteration, hmb, hd]
      rw [hb]
      exact ⟨⟨pend_len, pend_pid, started_range, mailbox_pids, next_eq,
        next_ge, destroyed_mb, trace_nil, trace_one, fifo_eq, fifo_le,
        settle_once, unsettled_mb, unsettled_pend, fresh_settle,
        started_settled⟩, by simp [hpend]⟩
    case false =>
      have hb : beginIteration opts c =
          { c with
            mailbox := rest
            pending := c.pending
              ++ [⟨e.pid, e.message, opts.handler c.state e.message⟩]
            log := c.log ++ [.handlerStart e.pid e.message] } := by
        simp [beginIteration, hmb, hd]
      rw [hb]
      have hmbp := mailbox_pids
      rw [hmb] at hmbp
      have hrange' : List.range' (dcount c.log) (rest.length + 1)
          = dcount c.log :: List.range' (dcount c.log + 1) rest.length :=
        rfl
      simp only [List.map_cons, List.length_cons, hrange'] at hmbp
      have hepid : e.pid = dcount c.log := (List.cons.injEq _ _ _ _ ▸ hmbp).1
      have hrest : rest.map QueuedMessage.pid
          = List.range' (dcount c.log + 1) rest.length :=
        (List.cons.injEq _ _ _ _ ▸ hmbp).2
      have hdc : dcount (c.log ++ [Event.handlerStart e.pid e.message])
          = dcount c.log + 1 := by
        rw [dcount_append]
        simp [dcount, startedPids_cons, startedPids_nil, startedPidProj]
      have hsp : startedPids
          ((c.log ++ [Event.handlerStart e.pid e.message]) : List (Event S M R))
          = startedPids c.log ++ [e.pid] := by
        simp [startedPids_append, startedPids_cons, startedPids_nil,
          startedPidProj]
      have hsm : startedMsgs
          ((c.log ++ [Event.handlerStart e.pid e.message]) : List (Event S M R))
          = startedMsgs c.log ++ [e.message] := by
        simp [startedMsgs_append, startedMsgs_cons, startedMsgs_nil,
          startedProj]
      have hsent : sentMsgs
          ((c.log ++ [Event.handlerStart e.pid e.message]) : List (Event S M R))
          = sentMsgs c.log := by
        simp [sentMsgs_append, sentMsgs_cons, sentMsgs_nil, sentProj]
      have htr : traceOf
          ((c.log ++ [Event.handlerStart e.pid e.message]) : List (Event S M R))
          = traceOf c.log ++ [(true, e.pid)] := by
        simp [traceOf_append, traceOf_cons, traceOf_nil, traceTag]
      have hcnt : ∀ pid,
          promiseSettleCount pid
            ((c.log ++ [Event.handlerStart e.pid e.message]) : List (Event S M R))
          = promiseSettleCount pid c.log := by
        intro pid
        simp [promiseSettleCount_append, promiseSettleCount_cons,
          promiseSettleCount_nil, settlesPid]
      have hmem : e ∈ c.mailbox := by rw [hmb]; exact List.mem_cons_self e rest
      have hnxt := next_eq hd
      rw [hmb] at hnxt
      simp only [List.length_cons] at hnxt
      refine ⟨⟨?_, ?_, ?_, ?_, ?_, ?_, ?_, ?_, ?_, ?_, ?_, ?_, ?_, ?_, ?_,
        ?_⟩, ?_⟩
      · simp [hpend]
      · intro f hf
        simp [hpend] at hf
        subst hf
        show e.pid + 1 = _
        rw [hdc, hepid]
      · show startedPids (c.log ++ [Event.handlerStart e.pid e.message])
          = List.range (dcount (c.log ++ [Event.handlerStart e.pid e.message]))
        rw [hsp, hdc, started_range, hepid]
        exact (List.range_succ (dcount c.log)).symm
      · show List.map QueuedMessage.pid rest = _
        rw [hdc, hrest]
      · intro _
        show c.nextPid = _ + rest.length
        rw [hdc]
        omega
      · show dcount (c.log ++ [Event.handlerStart e.pid e.message])
            + rest.length ≤ c.nextPid
        rw [hdc]
        omega
      · intro hfalse
        rw [hd] at hfalse
        exact absurd hfalse (by simp)
      · intro hcontra
        simp [hpend] at hcontra
      · intro f hf
        simp [hpend] at hf
        subst hf
        show traceOf (c.log ++ [Event.handlerStart e.pid e.message])
          = fullTrace e.pid ++ [(true, e.pid)]
        rw [htr, trace_nil hpend, hepid]
      · intro _
        show startedMsgs (c.log ++ [Event.handlerStart e.pid e.message])
            ++ List.map QueuedMessage.message rest
          = sentMsgs (c.log ++ [Event.handlerStart e.pid e.message])
        rw [hsm, hsent, ← fifo_eq hd, hmb]
        simp
      · show startedMsgs (c.log ++ [Event.handlerStart e.pid e.message])
            ++ List.map QueuedMessage.message rest
          <+: sentMsgs (c.log ++ [Event.handlerStart e.pid e.message])
        rw [hsm, hsent]
        have h2 : (startedMsgs c.log ++ [e.message])
            ++ List.map QueuedMessage.message rest = sentMsgs c.log := by
          rw [← fifo_eq hd, hmb]
          simp
        rw [h2]
      · intro pid
        rw [hcnt]
        exact settle_once pid
      · intro x hx
        rw [hcnt]
        exact unsettled_mb x (by rw [hmb]; exact List.mem_cons_of_mem _ hx)
      · intro f hf
        simp [hpend] at hf
        subst hf
        rw [hcnt]
        exact unsettled_mb e hmem
      · intro pid hpid
        rw [hcnt]
        exact fresh_settle pid hpid
      · intro pid hpid
        rw [hsp] at hpid
        rcases List.mem_append.1 hpid with hold | hnew
        · rcases started_settled pid hold with ⟨f, hf, _⟩ | hone
          · rw [hpend] at hf
            exact absurd hf (List.not_mem_nil f)
          · right
            rw [hcnt]
            exact hone
        · left
          refine ⟨⟨e.pid, e.message, opts.handler c.state e.message⟩,
            by simp [hpend], ?_⟩
          simpa using (List.mem_singleton.1 hnew).symm
      · constructor
        · intro _
          simp [hpend]
        · intro _
          exact hproc

theorem inv_processMailbox (opts : ActorOptions S M R) (c : Config S M R)
    (h : Inv c) : Inv (processMailbox opts c) := by
  by_cases hg : (c.processing || c.destroyed) = true
  · have hc' : processMailbox opts c = c := by simp [processMailbox, hg]
    rw [hc']
    exact h
  · have hp : c.processing = false := by
      cases hcp : c.processing
      · rfl
      · rw [hcp] at hg
        simp at hg
    have hpend : c.pending = [] := by
      cases hx : c.pending
      · rfl
      · have := h.proc_iff.2 (by rw [hx]; simp)
        rw [this] at hp
        exact absurd hp (by simp)
    have hc' : processMailbox opts c
        = beginIteration opts { c with processing := true } := by
      simp [processMailbox, hg]
    rw [hc']
    exact inv_beginIteration opts _
      ⟨h.pend_len, h.pend_pid, h.started_range, h.mailbox_pids, h.next_eq,
        h.next_ge, h.destroyed_mb, h.trace_nil, h.trace_one, h.fifo_eq,
        h.fifo_le, h.settle_once, h.unsettled_mb, h.unsettled_pend,
        h.fresh_settle, h.started_settled⟩ hpend rfl

/-- Invariant preservation for any change that keeps the engine fields and
appends only events invisible to every invariant projection. -/
theorem inv_log_neutral (c c' : Config S M R) (h : Inv c)
    (B : List (Event S M R))
    (hmb : c'.mailbox = c.mailbox) (hpd : c'.pending = c.pending)
    (hdes : c'.destroyed = c.destroyed) (hnp : c'.nextPid = c.nextPid)
    (hpr : c'.processing = c.processing) (hlog : c'.log = c.log ++ B)
    (hBsp : startedPids B = []) (hBsm : startedMsgs B = [])
    (hBsent : sentMsgs B = []) (hBtr : traceOf B = [])
    (hBcnt : ∀ pid, promiseSettleCount pid B = 0) : Inv c' := by
  have hsp : startedPids c'.log = startedPids c.log := by
    rw [hlog, startedPids_append, hBsp, List.append_nil]
  have hdc : dcount c'.log = dcount c.log := by simp [dcount, hsp]
  have hsm : startedMsgs c'.log = startedMsgs c.log := by
    rw [hlog, startedMsgs_append, hBsm, List.append_nil]
  have hsent : sentMsgs c'.log = sentMsgs c.log := by
    rw [hlog, sentMsgs_append, hBsent, List.append_nil]
  have htr : traceOf c'.log = traceOf c.log := by
    rw [hlog, traceOf_append, hBtr, List.append_nil]
  have hcnt : ∀ pid, promiseSettleCount pid c'.log
      = promiseSettleCount pid c.log := by
    intro pid
    rw [hlog, promiseSettleCount_append, hBcnt, Nat.add_zero]
  refine ⟨⟨?_, ?_, ?_, ?_, ?_, ?_, ?_, ?_, ?_, ?_, ?_, ?_, ?_, ?_, ?_, ?_⟩,
    ?_⟩
  · rw [hpd]
    exact h.pend_len
  · intro f hf
    rw [hpd] at hf
    rw [hdc]
    exact h.pend_pid f hf
  · rw [hsp, hdc]
    exact h.started_range
  · rw [hmb, hdc]
    exact h.mailbox_pids
  · intro hx
    rw [hdes] at hx
    rw [hnp, hdc, hmb]
    exact h.next_eq hx
  · rw [hnp, hdc, hmb]
    exact h.next_ge
  · intro hx
    rw [hdes] at hx
    rw [hmb]
    exact h.destroyed_mb hx
  · intro hx
    rw [hpd] at hx
    rw [htr, hdc]
    exact h.trace_nil hx
  · intro f hf
    rw [hpd] at hf
    rw [htr]
    exact h.trace_one f hf
  · intro hx
    rw [hdes] at hx
    rw [hsm, hsent, hmb]
    exact h.fifo_eq hx
  · rw [hsm, hsent, hmb]
    exact h.fifo_le
  · intro pid
    rw [hcnt]
    exact h.settle_once pid
  · intro e he
    rw [hmb] at he
    rw [hcnt]
    exact h.unsettled_mb e he
  · intro f hf
    rw [hpd] at hf
    rw [hcnt]
    exact h.unsettled_pend f hf
  · intro pid hp
    rw [hnp] at hp
    rw [hcnt]
    exact h.fresh_settle pid hp
  · intro pid hp
    rw [hsp] at hp
    rcases h.started_settled pid hp with ⟨f, hf, hfp⟩ | hone
    · exact Or.inl ⟨f, by rw [hpd]; exact hf, hfp⟩
    · right
      rw [hcnt]
      exact hone
  · rw [hpr, hpd]
    exact h.proc_iff

theorem inv_stepSubscribe (beh : SubBehavior S) (c : Config S M R)
    (sub : Nat) (h : Inv c) : Inv (stepSubscribe beh c sub) := by
  cases hb : beh sub c.state with
  | none =>
      have hc' : stepSubscribe beh c sub
          = { c with
              subscribers := c.subscribers ++ [sub]
              log := c.log ++ [.immediateEmit sub c.state] } := by
        simp [stepSubscribe, hb]
      rw [hc']
      exact inv_log_neutral c _ h [.immediateEmit sub c.state] rfl rfl rfl
        rfl rfl rfl
        (by simp [startedPids_cons, startedPids_nil, startedPidProj])
        (by simp [startedMsgs_cons, startedMsgs_nil, startedProj])
        (by simp [sentMsgs_cons, sentMsgs_nil, sentProj])
        (by simp [traceOf_cons, traceOf_nil, traceTag])
        (by intro pid
            simp [promiseSettleCount_cons, promiseSettleCount_nil,
              settlesPid])
  | some t =>
      have hc' : stepSubscribe beh c sub
          = { c with
              subscribers := c.subscribers ++ [sub]
              log := c.log ++ [.immediateEmit sub c.state,
                .subSinkError (coerceError t)] } := by
        simp [stepSubscribe, hb]
      rw [hc']
      exact inv_log_neutral c _ h
        [.immediateEmit sub c.state, .subSinkError (coerceError t)] rfl rfl
        rfl rfl rfl rfl
        (by simp [startedPids_cons, startedPids_nil, startedPidProj])
        (by simp [startedMsgs_cons, startedMsgs_nil, startedProj])
        (by simp [sentMsgs_cons, sentMsgs_nil, sentProj])
        (by simp [traceOf_cons, traceOf_nil, traceTag])
        (by intro pid
            simp [promiseSettleCount_cons, promiseSettleCount_nil,
              settlesPid])

theorem inv_stepUnsubscribe (c : Config S M R) (sub : Nat) (h : Inv c) :
    Inv (stepUnsubscribe c sub) :=
  ⟨⟨h.pend_len, h.pend_pid, h.started_range, h.mailbox_pids, h.next_eq,
    h.next_ge, h.destroyed_mb, h.trace_nil, h.trace_one, h.fifo_eq,
    h.fifo_le, h.settle_once, h.unsettled_mb, h.unsettled_pend,
    h.fresh_settle, h.started_settled⟩, h.proc_iff⟩

theorem inv_stepDestroy (c : Config S M R) (h : Inv c) :
    Inv (stepDestroy c) := by
  have hc' : stepDestroy c
      = { c with destroyed := true, mailbox := [], subscribers := [] } :=
    rfl
  rw [hc']
  refine ⟨⟨h.pend_len, h.pend_pid, h.started_range, ?_, ?_, ?_, ?_,
    h.trace_nil, h.trace_one, ?_, ?_, h.settle_once, ?_, h.unsettled_pend,
    h.fresh_settle, h.started_settled⟩, h.proc_iff⟩
  · simp
  · intro hx
    simp at hx
  · have := h.next_ge
    simp only [List.length_nil, Nat.add_zero]
    omega
  · intro _
    rfl
  · intro hx
    simp at hx
  · show startedMsgs c.log ++ List.map QueuedMessage.message [] <+: _
    simp only [List.map_nil, List.append_nil]
    exact (List.prefix_append _ _).trans h.fifo_le
  · intro e he
    simp at he

theorem inv_send_enqueue (c : Config S M R) (m : M) (h : Inv c)
    (hd : c.destroyed = false) :
    Inv { c with
          mailbox := c.mailbox ++ [⟨m, c.nextPid⟩]
          nextPid := c.nextPid + 1
          log := c.log ++ [.sendCalled c.nextPid m] } := by
  have hsp : startedPids
      ((c.log ++ [Event.sendCalled c.nextPid m]) : List (Event S M R))
      = startedPids c.log := by
    simp [startedPids_append, startedPids_cons, startedPids_nil,
      startedPidProj]
  have hdc : dcount
      ((c.log ++ [Event.sendCalled c.nextPid m]) : List (Event S M R))
      = dcount c.log := by
    simp [dcount, hsp]
  have hsm : startedMsgs
      ((c.log ++ [Event.sendCalled c.nextPid m]) : List (Event S M R))
      = startedMsgs c.log := by
    simp [startedMsgs_append, startedMsgs_cons, startedMsgs_nil,
      startedProj]
  have hsent : sentMsgs
      ((c.log ++ [Event.sendCalled c.nextPid m]) : List (Event S M R))
      = sentMsgs c.log ++ [m] := by
    simp [sentMsgs_append, sentMsgs_cons, sentMsgs_nil, sentProj]
  have htr : traceOf
      ((c.log ++ [Event.sendCalled c.nextPid m]) : List (Event S M R))
      = traceOf c.log := by
    simp [traceOf_append, traceOf_cons, traceOf_nil, traceTag]
  have hcnt : ∀ pid, promiseSettleCount pid
      ((c.log ++ [Event.sendCalled c.nextPid m]) : List (Event S M R))
      = promiseSettleCount pid c.log := by
    intro pid
    simp [promiseSettleCount_append, promiseSettleCount_cons,
      promiseSettleCount_nil, settlesPid]
  have hnxt := h.next_eq hd
  refine ⟨⟨h.pend_len, ?_, ?_, ?_, ?_, ?_, ?_, ?_, ?_, ?_, ?_, ?_, ?_, ?_,
    ?_, ?_⟩, h.proc_iff⟩
  · intro f hf
    rw [hdc]
    exact h.pend_pid f hf
  · rw [hsp, hdc]
    exact h.started_range
  · show List.map QueuedMessage.pid (c.mailbox ++ [⟨m, c.nextPid⟩]) = _
    rw [hdc]
    simp only [List.map_append, List.map_cons, List.map_nil,
      List.length_append, List.length_cons, List.length_nil,
      h.mailbox_pids]
    rw [hnxt]
    exact (List.range'_1_concat (dcount c.log) c.mailbox.length).symm
  · intro _
    show c.nextPid + 1 = _
    rw [hdc]
    simp only [List.length_append, List.length_cons, List.length_nil]
    omega
  · show dcount _
        + (c.mailbox ++ [({ message := m, pid := c.nextPid }
            : QueuedMessage M)]).length
      ≤ c.nextPid + 1
    rw [hdc]
    simp only [List.length_append, List.length_cons, List.length_nil]
    omega
  · intro hx
    rw [hd] at hx
    exact absurd hx (by simp)
  · intro hx
    rw [htr, hdc]
    exact h.trace_nil hx
  · intro f hf
    rw [htr]
    exact h.trace_one f hf
  · intro _
    show startedMsgs _ ++ List.map QueuedMessage.message
        (c.mailbox ++ [⟨m, c.nextPid⟩]) = _
    rw [hsm, hsent]
    simp only [List.map_append, List.map_cons, List.map_nil]
    rw [← List.append_assoc, h.fifo_eq hd]
  · show startedMsgs _ ++ List.map QueuedMessage.message
        (c.mailbox ++ [⟨m, c.nextPid⟩]) <+: sentMsgs _
    rw [hsm, hsent]
    simp only [List.map_append, List.map_cons, List.map_nil]
    rw [← List.append_assoc, h.fifo_eq hd]
  · intro pid
    rw [hcnt]
    exact h.settle_once pid
  · intro e he
    rw [hcnt]
    rcases List.mem_append.1 he with hold | hnew
    · exact h.unsettled_mb e hold
    · have : e = ⟨m, c.nextPid⟩ := List.mem_singleton.1 hnew
      rw [this]
      exact h.fresh_settle c.nextPid le_rfl
  · intro f hf
    rw [hcnt]
    exact h.unsettled_pend f hf
  · intro pid hp
    have hp' : c.nextPid + 1 ≤ pid := hp
    rw [hcnt]
    exact h.fresh_settle pid (by omega)
  · intro pid hp
    rw [hsp] at hp
    rcases h.started_settled pid hp with ⟨f, hf, hfp⟩ | hone
    · exact Or.inl ⟨f, hf, hfp⟩
    · right
      rw [hcnt]
      exact hone

theorem inv_stepSend [DecidableEq S] (opts : ActorOptions S M R)
    (c : Config S M R) (m : M) (h : Inv c) : Inv (stepSend opts c m) := by
  cases hd : c.destroyed
  case false =>
    have hc' : stepSend opts c m
        = processMailbox opts
            { c with
              mailbox := c.mailbox ++ [⟨m, c.nextPid⟩]
              nextPid := c.nextPid + 1
              log := c.log ++ [.sendCalled c.nextPid m] } := by
      simp [stepSend, hd]
    rw [hc']
    exact inv_processMailbox opts _ (inv_send_enqueue c m h hd)
  case true =>
    have hc' : stepSend opts c m
        = { c with
            log := c.log ++ [.sendCalled c.nextPid m,
              .rejectImmediate c.nextPid ⟨"Actor has been destroyed"⟩]
            nextPid := c.nextPid + 1 } := by
      simp [stepSend, hd]
    rw [hc']
    have hsp : startedPids
        ((c.log ++ [Event.sendCalled c.nextPid m,
          Event.rejectImmediate c.nextPid ⟨"Actor has been destroyed"⟩])
          : List (Event S M R))
        = startedPids c.log := by
      simp [startedPids_append, startedPids_cons, startedPids_nil,
        startedPidProj]
    have hdc : dcount
        ((c.log ++ [Event.sendCalled c.nextPid m,
          Event.rejectImmediate c.nextPid ⟨"Actor has been destroyed"⟩])
          : List (Event S M R))
        = dcount c.log := by
      simp [dcount, hsp]
    have hsm : startedMsgs
        ((c.log ++ [Event.sendCalled c.nextPid m,
          Event.rejectImmediate c.nextPid ⟨"Actor has been destroyed"⟩])
          : List (Event S M R))
        = startedMsgs c.log := by
      simp [startedMsgs_append, startedMsgs_cons, startedMsgs_nil,
        startedProj]
    have hsent : sentMsgs
        ((c.log ++ [Event.sendCalled c.nextPid m,
          Event.rejectImmediate c.nextPid ⟨"Actor has been destroyed"⟩])
          : List (Event S M R))
        = sentMsgs c.log ++ [m] := by
      simp [sentMsgs_append, sentMsgs_cons, sentMsgs_nil, sentProj]
    have htr : traceOf
        ((c.log ++ [Event.sendCalled c.nextPid m,
          Event.rejectImmediate c.nextPid ⟨"Actor has been destroyed"⟩])
          : List (Event S M R))
        = traceOf c.log := by
      simp [traceOf_append, traceOf_cons, traceOf_nil, traceTag]
    have hcnt : ∀ pid, promiseSettleCount pid
        ((c.log ++ [Event.sendCalled c.nextPid m,
          Event.rejectImmediate c.nextPid ⟨"Actor has been destroyed"⟩])
          : List (Event S M R))
        = promiseSettleCount pid c.log
          + (if pid = c.nextPid then 1 else 0) := by
      intro pid
      by_cases hp : pid = c.nextPid <;>
        simp [promiseSettleCount_append, promiseSettleCount_cons,
          promiseSettleCount_nil, settlesPid, hp, beq_iff_eq]
      omega
    have hmbnil : c.mailbox = [] := h.destroyed_mb hd
    refine ⟨⟨h.pend_len, ?_, ?_, ?_, ?_, ?_, ?_, ?_, ?_, ?_, ?_, ?_, ?_,
      ?_, ?_, ?_⟩, h.proc_iff⟩
    · intro f hf
      rw [hdc]
      exact h.pend_pid f hf
    · rw [hsp, hdc]
      exact h.started_range
    · rw [hdc]
      exact h.mailbox_pids
    · intro hx
      rw [hd] at hx
      exact absurd hx (by simp)
    · show dcount _ + c.mailbox.length ≤ c.nextPid + 1
      rw [hdc]
      have := h.next_ge
      omega
    · intro _
      exact hmbnil
    · intro hx
      rw [htr, hdc]
      exact h.trace_nil hx
    · intro f hf
      rw [htr]
      exact h.trace_one f hf
    · intro hx
      rw [hd] at hx
      exact absurd hx (by simp)
    · rw [hsm, hsent]
      exact h.fifo_le.trans (List.prefix_append _ _)
    · intro pid
      rw [hcnt]
      by_cases hp : pid = c.nextPid
      · rw [if_pos hp, hp]
        have := h.fresh_settle c.nextPid le_rfl
        omega
      · rw [if_neg hp, Nat.add_zero]
        exact h.settle_once pid
    · intro e he
      rw [hmbnil] at he
      exact absurd he (List.not_mem_nil e)
    · intro f hf
      rw [hcnt]
      have h1 := h.pend_pid f hf
      have h2 := h.next_ge
      rw [if_neg (by omega), Nat.add_zero]
      exact h.unsettled_pend f hf
    · intro pid hp
      have hp' : c.nextPid + 1 ≤ pid := hp
      rw [hcnt, if_neg (by omega), Nat.add_zero]
      exact h.fresh_settle pid (by omega)
    · intro pid hp
      rw [hsp] at hp
      rcases h.started_settled pid hp with ⟨f, hf, hfp⟩ | hone
      · exact Or.inl ⟨f, hf, hfp⟩
      · right
        rw [hcnt]
        have hlt : pid < dcount c.log := by
          rw [h.started_range] at hp
          exact List.mem_range.1 hp
        have := h.next_ge
        rw [if_neg (by omega), Nat.add_zero]
        exact hone

theorem applyReducer_mailbox [DecidableEq S] (opts : ActorOptions S M R)
    (beh : SubBehavior S) (c : Config S M R) (r : R) :
    (applyReducer opts beh c r).mailbox = c.mailbox := by
  unfold applyReducer
  cases opts.reducer with
  | none => rfl
  | some red =>
      by_cases hns : red c.state r = c.state <;>
        simp [hns, notifySubscribers]

theorem applyReducer_pending [DecidableEq S] (opts : ActorOptions S M R)
    (beh : SubBehavior S) (c : Config S M R) (r : R) :
    (applyReducer opts beh c r).pending = c.pending := by
  unfold applyReducer
  cases opts.reducer with
  | none => rfl
  | some red =>
      by_cases hns : red c.state r = c.state <;>
        simp [hns, notifySubscribers]

theorem applyReducer_destroyed [DecidableEq S] (opts : ActorOptions S M R)
    (beh : SubBehavior S) (c : Config S M R) (r : R) :
    (applyReducer opts beh c r).destroyed = c.destroyed := by
  unfold applyReducer
  cases opts.reducer with
  | none => rfl
  | some red =>
      by_cases hns : red c.state r = c.state <;>
        simp [hns, notifySubscribers]

theorem applyReducer_nextPid [DecidableEq S] (opts : ActorOptions S M R)
    (beh : SubBehavior S) (c : Config S M R) (r : R) :
    (applyReducer opts beh c r).nextPid = c.nextPid := by
  unfold applyReducer
  cases opts.reducer with
  | none => rfl
  | some red =>
      by_cases hns : red c.state r = c.state <;>
        simp [hns, notifySubscribers]

theorem applyReducer_processing [DecidableEq S]
    (opts : ActorOptions S M R) (beh : SubBehavior S) (c : Config S M R)
    (r : R) :
    (applyReducer opts beh c r).processing = c.processing := by
  unfold applyReducer
  cases opts.reducer with
  | none => rfl
  | some red =>
      by_cases hns : red c.state r = c.state <;>
        simp [hns, notifySubscribers]

theorem startedPids_applyReducer [DecidableEq S]
    (opts : ActorOptions S M R) (beh : SubBehavior S) (c : Config S M R)
    (r : R) :
    startedPids (applyReducer opts beh c r).log = startedPids c.log := by
  unfold applyReducer
  cases opts.reducer with
  | none => rfl
  | some red =>
      by_cases hns : red c.state r = c.state <;>
        simp [hns, notifySubscribers, startedPids_append, startedPids_cons,
          startedPids_nil, startedPidProj, startedPids_deliver]

theorem startedMsgs_applyReducer [DecidableEq S]
    (opts : ActorOptions S M R) (beh : SubBehavior S) (c : Config S M R)
    (r : R) :
    startedMsgs (applyReducer opts beh c r).log = startedMsgs c.log := by
  unfold applyReducer
  cases opts.reducer with
  | none => rfl
  | some red =>
      by_cases hns : red c.state r = c.state <;>
        simp [hns, notifySubscribers, startedMsgs_append, startedMsgs_cons,
          startedMsgs_nil, startedProj, startedMsgs_deliver]

theorem sentMsgs_applyReducer [DecidableEq S] (opts : ActorOptions S M R)
    (beh : SubBehavior S) (c : Config S M R) (r : R) :
    sentMsgs (applyReducer opts beh c r).log = sentMsgs c.log := by
  unfold applyReducer
  cases opts.reducer with
  | none => rfl
  | some red =>
      by_cases hns : red c.state r = c.state <;>
        simp [hns, notifySubscribers, sentMsgs_append, sentMsgs_cons,
          sentMsgs_nil, sentProj, sentMsgs_deliver]

theorem traceOf_applyReducer [DecidableEq S] (opts : ActorOptions S M R)
    (beh : SubBehavior S) (c : Config S M R) (r : R) :
    traceOf (applyReducer opts beh c r).log = traceOf c.log := by
  unfold applyReducer
  cases opts.reducer with
  | none => rfl
  | some red =>
      by_cases hns : red c.state r = c.state <;>
        simp [hns, notifySubscribers, traceOf_append, traceOf_cons,
          traceOf_nil, traceTag, traceOf_deliver]

theorem promiseSettleCount_applyReducer [DecidableEq S]
    (opts : ActorOptions S M R) (beh : SubBehavior S) (c : Config S M R)
    (r : R) (pid : Nat) :
    promiseSettleCount pid (applyReducer opts beh c r).log
      = promiseSettleCount pid c.log := by
  unfold applyReducer
  cases opts.reducer with
  | none => rfl
  | some red =>
      by_cases hns : red c.state r = c.state <;>
        simp [hns, notifySubscribers, promiseSettleCount_append,
          promiseSettleCount_cons, promiseSettleCount_nil, settlesPid,
          promiseSettleCount_deliver]

/-- Invariant preservation for the resumption of the suspended drain
iteration: the settled iteration's promise settles (exactly one drain
settle event for `f.pid` was appended) and the loop continues. -/
theorem inv_after_settle (opts : ActorOptions S M R)
    (c c₃ : Config S M R) (h : Inv c) (f : InFlight M R)
    (hpend1 : c.pending = [f])
    (hmb : c₃.mailbox = c.mailbox) (hpd : c₃.pending = [])
    (hdes : c₃.destroyed = c.destroyed) (hnp : c₃.nextPid = c.nextPid)
    (hpr : c₃.processing = c.processing)
    (hsp : startedPids c₃.log = startedPids c.log)
    (hsm : startedMsgs c₃.log = startedMsgs c.log)
    (hsent : sentMsgs c₃.log = sentMsgs c.log)
    (htr : traceOf c₃.log = traceOf c.log ++ [(false, f.pid)])
    (hcnt : ∀ pid, promiseSettleCount pid c₃.log
        = promiseSettleCount pid c.log
          + (if pid = f.pid then 1 else 0)) :
    Inv (beginIteration opts c₃) := by
  have hfmem : f ∈ c.pending := by
    rw [hpend1]
    exact List.mem_singleton.2 rfl
  have hdpid : f.pid + 1 = dcount c.log := h.pend_pid f hfmem
  have hdc : dcount c₃.log = dcount c.log := by simp [dcount, hsp]
  have hcnt0 : promiseSettleCount f.pid c.log = 0 :=
    h.unsettled_pend f hfmem
  refine inv_beginIteration opts c₃ ⟨?_, ?_, ?_, ?_, ?_, ?_, ?_, ?_, ?_,
    ?_, ?_, ?_, ?_, ?_, ?_, ?_⟩ hpd ?_
  · rw [hpd]
    simp
  · intro g hg
    rw [hpd] at hg
    exact absurd hg (List.not_mem_nil g)
  · rw [hsp, hdc]
    exact h.started_range
  · rw [hmb, hdc]
    exact h.mailbox_pids
  · intro hx
    rw [hdes] at hx
    rw [hnp, hdc, hmb]
    exact h.next_eq hx
  · rw [hnp, hdc, hmb]
    exact h.next_ge
  · intro hx
    rw [hdes] at hx
    rw [hmb]
    exact h.destroyed_mb hx
  · intro _
    rw [htr, h.trace_one f hfmem, hdc, ← hdpid, List.append_assoc]
    exact (fullTrace_succ f.pid).symm
  · intro g hg
    rw [hpd] at hg
    exact absurd hg (List.not_mem_nil g)
  · intro hx
    rw [hdes] at hx
    rw [hsm, hsent, hmb]
    exact h.fifo_eq hx
  · rw [hsm, hsent, hmb]
    exact h.fifo_le
  · intro pid
    rw [hcnt]
    by_cases hp : pid = f.pid
    · rw [if_pos hp, hp, hcnt0]
    · rw [if_neg hp, Nat.add_zero]
      exact h.settle_once pid
  · intro e he
    rw [hmb] at he
    rw [hcnt]
    have hepid : dcount c.log ≤ e.pid := by
      have hmem : e.pid ∈ List.map QueuedMessage.pid c.mailbox :=
        List.mem_map_of_mem QueuedMessage.pid he
      rw [h.mailbox_pids] at hmem
      exact (List.mem_range'_1.1 hmem).1
    rw [if_neg (by omega), Nat.add_zero]
    exact h.unsettled_mb e he
  · intro g hg
    rw [hpd] at hg
    exact absurd hg (List.not_mem_nil g)
  · intro pid hp
    rw [hnp] at hp
    rw [hcnt]
    have := h.next_ge
    rw [if_neg (by omega), Nat.add_zero]
    exact h.fresh_settle pid hp
  · intro pid hp
    rw [hsp] at hp
    by_cases hpid : pid = f.pid
    · right
      rw [hcnt, if_pos hpid, hpid, hcnt0]
    · rcases h.started_settled pid hp with ⟨g, hg, hgp⟩ | hone
      · rw [hpend1] at hg
        rw [List.mem_singleton.1 hg] at hgp
        exact absurd hgp.symm hpid
      · right
        rw [hcnt, if_neg hpid, Nat.add_zero]
        exact hone
  · rw [hpr]
    exact h.proc_iff.2 (by rw [hpend1]; simp)

theorem inv_stepSettle [DecidableEq S] (opts : ActorOptions S M R)
    (beh : SubBehavior S) (c : Config S M R) (i : Nat) (h : Inv c) :
    Inv (stepSettle opts beh c i) := by
  cases hset : c.pending[i]? with
  | none =>
      have hc' : stepSettle opts beh c i = c := by simp [stepSettle, hset]
      rw [hc']
      exact h
  | some f =>
      have hfmem : f ∈ c.pending := List.getElem?_mem hset
      have hpend1 : c.pending = [f] := by
        have hlen := h.pend_len
        rcases hcp : c.pending with _ | ⟨g, gs⟩
        · rw [hcp] at hfmem
          exact absurd hfmem (List.not_mem_nil f)
        · rw [hcp] at hlen hfmem
          simp only [List.length_cons] at hlen
          have hgs : gs = [] := List.length_eq_zero.1 (by omega)
          subst hgs
          have hfg : f = g := by simpa using hfmem
          rw [hfg]
      have hi0 : i = 0 := by
        rw [hpend1] at hset
        cases i with
        | zero => rfl
        | succ n => simp at hset
      subst hi0
      have hc' : stepSettle opts beh c 0
          = resume opts beh { c with pending := [] } f := by
        simp [stepSettle, hset, hpend1]
      rw [hc']
      cases hres : f.result with
      | error t =>
          have hr : resume opts beh { c with pending := [] } f
              = beginIteration opts
                  { c with
                    pending := []
                    log := c.log
                      ++ ((if opts.hasOnError
                          then [.onErrorCall (coerceError t) f.message]
                          else [])
                        ++ [.rejectP f.pid (coerceError t)]) } := by
            simp [resume, hres, List.append_assoc]
          rw [hr]
          refine inv_after_settle opts c _ h f hpend1 rfl rfl rfl rfl rfl
            ?_ ?_ ?_ ?_ ?_
          · show startedPids (c.log ++ _) = _
            cases ho : opts.hasOnError <;>
              simp [ho, startedPids_append, startedPids_cons,
                startedPids_nil, startedPidProj]
          · show startedMsgs (c.log ++ _) = _
            cases ho : opts.hasOnError <;>
              simp [ho, startedMsgs_append, startedMsgs_cons,
                startedMsgs_nil, startedProj]
          · show sentMsgs (c.log ++ _) = _
            cases ho : opts.hasOnError <;>
              simp [ho, sentMsgs_append, sentMsgs_cons, sentMsgs_nil,
                sentProj]
          · show traceOf (c.log ++ _) = _
            cases ho : opts.hasOnError <;>
              simp [ho, traceOf_append, traceOf_cons, traceOf_nil,
                traceTag]
          · intro pid
            show promiseSettleCount pid (c.log ++ _) = _
            by_cases hp : pid = f.pid
            · cases ho : opts.hasOnError <;>
                simp [hp, ho, promiseSettleCount_append,
                  promiseSettleCount_cons, promiseSettleCount_nil,
                  settlesPid, beq_iff_eq]
            · have hp' : ¬(f.pid = pid) := fun hh => hp hh.symm
              cases ho : opts.hasOnError <;>
                simp [hp, hp', ho, promiseSettleCount_append,
                  promiseSettleCount_cons, promiseSettleCount_nil,
                  settlesPid, beq_iff_eq]
      | ok r =>
          have hr : resume opts beh { c with pending := [] } f
              = beginIteration opts
                  { applyReducer opts beh { c with pending := [] } r with
                    log := (applyReducer opts beh
                        { c with pending := [] } r).log
                      ++ [.resolveP f.pid r] } := by
            simp [resume, hres]
          rw [hr]
          refine inv_after_settle opts c _ h f hpend1 ?_ ?_ ?_ ?_ ?_ ?_ ?_
            ?_ ?_ ?_
          · show (applyReducer opts beh { c with pending := [] } r).mailbox
              = c.mailbox
            rw [applyReducer_mailbox]
          · show (applyReducer opts beh { c with pending := [] } r).pending
              = []
            rw [applyReducer_pending]
          · show (applyReducer opts beh
                { c with pending := [] } r).destroyed = c.destroyed
            rw [applyReducer_destroyed]
          · show (applyReducer opts beh { c with pending := [] } r).nextPid
              = c.nextPid
            rw [applyReducer_nextPid]
          · show (applyReducer opts beh
                { c with pending := [] } r).processing = c.processing
            rw [applyReducer_processing]
          · show startedPids ((applyReducer opts beh
                { c with pending := [] } r).log ++ [.resolveP f.pid r])
              = startedPids c.log
            rw [startedPids_append, startedPids_applyReducer]
            simp [startedPids_cons, startedPids_nil, startedPidProj]
          · show startedMsgs ((applyReducer opts beh
                { c with pending := [] } r).log ++ [.resolveP f.pid r])
              = startedMsgs c.log
            rw [startedMsgs_append, startedMsgs_applyReducer]
            simp [startedMsgs_cons, startedMsgs_nil, startedProj]
          · show sentMsgs ((applyReducer opts beh
                { c with pending := [] } r).log ++ [.resolveP f.pid r])
              = sentMsgs c.log
            rw [sentMsgs_append, sentMsgs_applyReducer]
            simp [sentMsgs_cons, sentMsgs_nil, sentProj]
          · show traceOf ((applyReducer opts beh
                { c with pending := [] } r).log ++ [.resolveP f.pid r])
              = traceOf c.log ++ [(false, f.pid)]
            rw [traceOf_append, traceOf_applyReducer]
            simp [traceOf_cons, traceOf_nil, traceTag]
          · intro pid
            show promiseSettleCount pid ((applyReducer opts beh
                { c with pending := [] } r).log ++ [.resolveP f.pid r])
              = _
            rw [promiseSettleCount_append,
              promiseSettleCount_applyReducer]
            by_cases hp : pid = f.pid
            · simp [hp, promiseSettleCount_cons, promiseSettleCount_nil,
                settlesPid, beq_iff_eq]
            · have hp' : ¬(f.pid = pid) := fun hh => hp hh.symm
              simp [hp, hp', promiseSettleCount_cons,
                promiseSettleCount_nil, settlesPid, beq_iff_eq]

theorem inv_step [DecidableEq S] (opts : ActorOptions S M R)
    (beh : SubBehavior S) (c : Config S M R) (a : Action M) (h : Inv c) :
    Inv (step opts beh c a) := by
  cases a with
  | send m => exact inv_stepSend opts c m h
  | settle i => exact inv_stepSettle opts beh c i h
  | subscribe sub => exact inv_stepSubscribe beh c sub h
  | unsubscribe sub => exact inv_stepUnsubscribe c sub h
  | destroy => exact inv_stepDestroy c h

theorem inv_initConfig (opts : ActorOptions S M R) :
    Inv (initConfig opts) := by
  refine ⟨⟨?_, ?_, ?_, ?_, ?_, ?_, ?_, ?_, ?_, ?_, ?_, ?_, ?_, ?_, ?_, ?_⟩,
    ?_⟩ <;>
    simp [initConfig, dcount, startedPids_nil, startedMsgs_nil,
      sentMsgs_nil, traceOf_nil, promiseSettleCount_nil, fullTrace]

theorem inv_run [DecidableEq S] (opts : ActorOptions S M R)
    (beh : SubBehavior S) (acts : List (Action M)) :
    Inv (run opts beh acts) := by
  suffices hgen : ∀ (l : List (Action M)) (c : Config S M R), Inv c →
      Inv (l.foldl (fun c a => step opts beh c a) c) by
    exact hgen acts (initConfig opts) (inv_initConfig opts)
  intro l
  induction l with
  | nil => exact fun c hc => hc
  | cons a as ih =>
      intro c hc
      exact ih _ (inv_step opts beh c a hc)

theorem sentMsgs_beginIteration (opts : ActorOptions S M R)
    (c : Config S M R) :
    sentMsgs (beginIteration opts c).log = sentMsgs c.log := by
  rcases h : c.mailbox with _ | ⟨e, rest⟩ <;> cases hd : c.destroyed <;>
    simp [beginIteration, h, hd, sentMsgs_append, sentMsgs_cons,
      sentMsgs_nil, sentProj]

theorem sentMsgs_processMailbox (opts : ActorOptions S M R)
    (c : Config S M R) :
    sentMsgs (processMailbox opts c).log = sentMsgs c.log := by
  by_cases hcd : (c.processing || c.destroyed) = true <;>
    simp [processMailbox, hcd, sentMsgs_beginIteration]

theorem sentMsgs_step [DecidableEq S] (opts : ActorOptions S M R)
    (beh : SubBehavior S) (c : Config S M R) (a : Action M) :
    sentMsgs (step opts beh c a).log = sentMsgs c.log ++ sentOf [a] := by
  cases a with
  | send m =>
      by_cases hd : c.destroyed = true
      · simp [step, stepSend, hd, sentMsgs_append, sentMsgs_cons,
          sentMsgs_nil, sentProj, sentOf]
      · simp only [step, stepSend, hd, Bool.false_eq_true, if_false,
          sentMsgs_processMailbox]
        simp [sentMsgs_append, sentMsgs_cons, sentMsgs_nil, sentProj,
          sentOf]
  | settle i =>
      cases hset : c.pending[i]? with
      | none => simp [step, stepSettle, hset, sentOf]
      | some f =>
          cases hres : f.result with
          | ok r =>
              simp [step, stepSettle, hset, resume, hres,
                sentMsgs_beginIteration, sentMsgs_append,
                sentMsgs_applyReducer, sentMsgs_cons, sentMsgs_nil,
                sentProj, sentOf]
          | error t =>
              cases ho : opts.hasOnError <;>
                simp [step, stepSettle, hset, resume, hres, ho,
                  sentMsgs_beginIteration, sentMsgs_append, sentMsgs_cons,
                  sentMsgs_nil, sentProj, sentOf]
  | subscribe sub =>
      cases hb : beh sub c.state <;>
        simp [step, stepSubscribe, hb, sentMsgs_append, sentMsgs_cons,
          sentMsgs_nil, sentProj, sentOf]
  | unsubscribe sub => simp [step, stepUnsubscribe, sentOf]
  | destroy => simp [step, stepDestroy, sentOf]

theorem sentMsgs_run [DecidableEq S] (opts : ActorOptions S M R)
    (beh : SubBehavior S) (acts : List (Action M)) :
    sentMsgs (run opts beh acts).log = sentOf acts := by
  suffices hgen : ∀ (l : List (Action M)) (c : Config S M R),
      sentMsgs (l.foldl (fun c a => step opts beh c a) c).log
        = sentMsgs c.log ++ sentOf l by
    simpa [initConfig, sentMsgs_nil] using
      hgen acts (initConfig opts)
  intro l
  induction l with
  | nil => intro c; simp [sentOf]
  | cons a as ih =>
      intro c
      simp only [List.foldl_cons, ih, sentMsgs_step, List.append_assoc,
        sentOf]
      rw [← List.filterMap_append, List.singleton_append]

/-- C1: FIFO ordering.  Over every interleaving of `send` calls, handler
completions, subscriptions and destruction (hence regardless of every
per-message latency), the sequence of messages for which the handler has
been invoked, in invocation order, is a prefix of the sequence of messages
passed to `send`, in call order; and as long as the actor is not
destroyed, the invoked messages followed by the still-queued mailbox
messages are exactly the sent messages — no reordering and no loss. -/
theorem fifo_handler_order [DecidableEq S] (opts : ActorOptions S M R)
    (beh : SubBehavior S) (acts : List (Action M)) :
    startedMsgs (run opts beh acts).log <+: sentOf acts
    ∧ ((run opts beh acts).destroyed = false →
        startedMsgs (run opts beh acts).log
          ++ (run opts beh acts).mailbox.map QueuedMessage.message
        = sentOf acts) := by
  have hinv := inv_run opts beh acts
  have hsent := sentMsgs_run opts beh acts
  constructor
  · rw [← hsent]
    exact (List.prefix_append _ _).trans hinv.fifo_le
  · intro hd
    rw [← hsent]
    exact hinv.fifo_eq hd

/-- Witness for `fifo_handler_order`: two sends with one settle in
between; invocation order `[1]` is a prefix of call order `[1, 2]`, and
invoked plus queued equals sent. -/
theorem fifo_handler_order_witness :
    startedMsgs (run natOpts quietBeh [.send 1, .send 2]).log
      <+: sentOf [Action.send 1, Action.send 2]
    ∧ startedMsgs (run natOpts quietBeh [.send 1, .send 2]).log
        ++ (run natOpts quietBeh
            [.send 1, .send 2]).mailbox.map QueuedMessage.message
      = sentOf [Action.send 1, Action.send 2] := by
  have h := fifo_handler_order natOpts quietBeh [.send 1, .send 2]
  exact ⟨h.1, h.2 (by decide)⟩

/-- C2: serialization.  In every reachable configuration at most one drain
invocation is suspended (at most one handler invocation in flight); the
start/settle trace of the drain loop is a strict alternation
`start 0, settle 0, start 1, settle 1, ...` — the handler invocation for a
later message never begins before the earlier invocation's promise has
settled; and a `send` arriving while a drain is in progress only appends
to the mailbox: it starts no handler, touches no suspended invocation, and
leaves the `processing` flag alone. -/
theorem serialized_drain [DecidableEq S] (opts : ActorOptions S M R)
    (beh : SubBehavior S) (acts : List (Action M)) :
    (run opts beh acts).pending.length ≤ 1
    ∧ ((run opts beh acts).pending = [] →
        traceOf (run opts beh acts).log
          = fullTrace (dcount (run opts beh acts).log))
    ∧ (∀ f ∈ (run opts beh acts).pending,
        traceOf (run opts beh acts).log
          = fullTrace f.pid ++ [(true, f.pid)])
    ∧ (∀ (c : Config S M R) (m : M), c.processing = true →
        c.destroyed = false →
        (stepSend opts c m).log = c.log ++ [.sendCalled c.nextPid m]
        ∧ (stepSend opts c m).pending = c.pending
        ∧ (stepSend opts c m).mailbox = c.mailbox ++ [⟨m, c.nextPid⟩]
        ∧ (stepSend opts c m).processing = c.processing) := by
  have hinv := inv_run opts beh acts
  refine ⟨hinv.pend_len, hinv.trace_nil, hinv.trace_one, ?_⟩
  intro c m hp hd
  have hc' : stepSend opts c m
      = { c with
          mailbox := c.mailbox ++ [⟨m, c.nextPid⟩]
          nextPid := c.nextPid + 1
          log := c.log ++ [.sendCalled c.nextPid m] } := by
    simp [stepSend, hd, processMailbox, hp]
  rw [hc']
  exact ⟨rfl, rfl, rfl, rfl⟩

/-- Witness for `serialized_drain`: after `[send 1, send 2]` the single
suspended invocation is for promise `0` and the trace is
`[start 0]`; a further send against this draining configuration only
enqueues. -/
theorem serialized_drain_witness :
    traceOf (run natOpts quietBeh [.send 1, .send 2]).log
      = fullTrace 0 ++ [(true, 0)]
    ∧ (stepSend natOpts (run natOpts quietBeh [.send 1, .send 2]) 3).pending
      = (run natOpts quietBeh [.send 1, .send 2]).pending := by
  have h := serialized_drain natOpts quietBeh [.send 1, .send 2]
  exact ⟨h.2.2.1 ⟨0, 1, .ok 1⟩ (by decide),
    (h.2.2.2 _ 3 (by decide) (by decide)).2.1⟩

/-- C4 (amended): every `send` promise settles at most once in every run;
and every message actually dispatched to the handler either still has its
drain invocation suspended (handler not yet settled) or its promise has
settled exactly once.  (Messages still queued in the mailbox when
`destroy()` runs are discarded and their promises never settle — see the
counterexample.) -/
theorem settle_at_most_once [DecidableEq S] (opts : ActorOptions S M R)
    (beh : SubBehavior S) (acts : List (Action M)) :
    (∀ pid, promiseSettleCount pid (run opts beh acts).log ≤ 1)
    ∧ (∀ pid ∈ startedPids (run opts beh acts).log,
        (∃ f ∈ (run opts beh acts).pending, f.pid = pid)
        ∨ promiseSettleCount pid (run opts beh acts).log = 1) :=
  ⟨(inv_run opts beh acts).settle_once,
    (inv_run opts beh acts).started_settled⟩

/-- Witness for `settle_at_most_once`: after `[send 1, settle 0]` promise
`0` was dispatched and settled exactly once. -/
theorem settle_at_most_once_witness :
    promiseSettleCount 0 (run natOpts quietBeh [.send 1, .settle 0]).log
      ≤ 1
    ∧ promiseSettleCount 0 (run natOpts quietBeh [.send 1, .settle 0]).log
      = 1 := by
  have h := settle_at_most_once natOpts quietBeh [.send 1, .settle 0]
  exact ⟨h.1 0, (h.2 0 (by decide)).resolve_left (by decide)⟩

/-! ### Abandoned promises -/

/-- Promise ids of the entries currently queued in the mailbox. -/
def mailboxPids (c : Config S M R) : List Nat :=
  c.mailbox.map QueuedMessage.pid

/-- Promise ids of the currently suspended drain invocations. -/
def pendingPids (c : Config S M R) : List Nat :=
  c.pending.map InFlight.pid

/-- A promise that has been allocated but is referenced nowhere: it is not
queued, not in flight, and has never settled.  Nothing can ever settle it
again. -/
def DeadPromise (pid : Nat) (c : Config S M R) : Prop :=
  pid < c.nextPid ∧ pid ∉ mailboxPids c ∧ pid ∉ pendingPids c
  ∧ promiseSettleCount pid c.log = 0

theorem dead_beginIteration (opts : ActorOptions S M R)
    (c : Config S M R) (pid : Nat) (h : DeadPromise pid c) :
    DeadPromise pid (beginIteration opts c) := by
  obtain ⟨h1, h2, h3, h4⟩ := h
  rcases hmb : c.mailbox with _ | ⟨e, rest⟩ <;> cases hd : c.destroyed
  case nil.false | nil.true =>
    have hb : beginIteration opts c = { c with processing := false } := by
      simp [beginIteration, hmb]
    rw [hb]
    exact ⟨h1, h2, h3, h4⟩
  case cons.true =>
    have hb : beginIteration opts c = { c with processing := false } := by
      simp [beginIteration, hmb, hd]
    rw [hb]
    exact ⟨h1, h2, h3, h4⟩
  case cons.false =>
    have hb : beginIteration opts c =
        { c with
          mailbox := rest
          pending := c.pending
            ++ [⟨e.pid, e.message, opts.handler c.state e.message⟩]
          log := c.log ++ [.handlerStart e.pid e.message] } := by
      simp [beginIteration, hmb, hd]
    rw [hb]
    rw [mailboxPids, hmb] at h2
    simp only [List.map_cons, List.mem_cons] at h2
    push_neg at h2
    refine ⟨h1, ?_, ?_, ?_⟩
    · show pid ∉ rest.map QueuedMessage.pid
      exact h2.2
    · show pid ∉ (c.pending ++ [_]).map InFlight.pid
      simp only [List.map_append, List.map_cons, List.map_nil,
        List.mem_append, List.mem_cons]
      push_neg
      exact ⟨h3, h2.1, fun hx => absurd hx (List.not_mem_nil pid)⟩
    · show promiseSettleCount pid (c.log ++ _) = 0
      simp [promiseSettleCount_append, promiseSettleCount_cons,
        promiseSettleCount_nil, settlesPid, h4]

theorem dead_processMailbox (opts : ActorOptions S M R)
    (c : Config S M R) (pid : Nat) (h : DeadPromise pid c) :
    DeadPromise pid (processMailbox opts c) := by
  by_cases hcd : (c.processing || c.destroyed) = true
  · have hc' : processMailbox opts c = c := by simp [processMailbox, hcd]
    rw [hc']
    exact h
  · have hc' : processMailbox opts c
        = beginIteration opts { c with processing := true } := by
      simp [processMailbox, hcd]
    rw [hc']
    exact dead_beginIteration opts _ pid h

theorem deadPromise_step [DecidableEq S] (opts : ActorOptions S M R)
    (beh : SubBehavior S) (c : Config S M R) (a : Action M) (pid : Nat)
    (h : DeadPromise pid c) : DeadPromise pid (step opts beh c a) := by
  obtain ⟨h1, h2, h3, h4⟩ := h
  cases a with
  | send m =>
      cases hd : c.destroyed
      case true =>
        have hc' : stepSend opts c m
            = { c with
                log := c.log ++ [.sendCalled c.nextPid m,
                  .rejectImmediate c.nextPid ⟨"Actor has been destroyed"⟩]
                nextPid := c.nextPid + 1 } := by
          simp [stepSend, hd]
        show DeadPromise pid (stepSend opts c m)
        rw [hc']
        refine ⟨show pid < c.nextPid + 1 by omega, h2, h3, ?_⟩
        show promiseSettleCount pid (c.log ++ _) = 0
        have hne : ¬(c.nextPid = pid) := by omega
        simp [promiseSettleCount_append, promiseSettleCount_cons,
          promiseSettleCount_nil, settlesPid, beq_iff_eq, hne, h4]
      case false =>
        have hc' : stepSend opts c m
            = processMailbox opts
                { c with
                  mailbox := c.mailbox ++ [⟨m, c.nextPid⟩]
                  nextPid := c.nextPid + 1
                  log := c.log ++ [.sendCalled c.nextPid m] } := by
          simp [stepSend, hd]
        show DeadPromise pid (stepSend opts c m)
        rw [hc']
        apply dead_processMailbox
        refine ⟨show pid < c.nextPid + 1 by omega, ?_, h3, ?_⟩
        · show pid ∉ (c.mailbox ++ [_]).map QueuedMessage.pid
          simp only [List.map_append, List.map_cons, List.map_nil,
            List.mem_append, List.mem_cons]
          push_neg
          exact ⟨h2, by omega, fun hx => absurd hx (List.not_mem_nil pid)⟩
        · show promiseSettleCount pid (c.log ++ _) = 0
          simp [promiseSettleCount_append, promiseSettleCount_cons,
            promiseSettleCount_nil, settlesPid, h4]
  | settle i =>
      cases hset : c.pending[i]? with
      | none =>
          have hc' : stepSettle opts beh c i = c := by
            simp [stepSettle, hset]
          show DeadPromise pid (stepSettle opts beh c i)
          rw [hc']
          exact ⟨h1, h2, h3, h4⟩
      | some f =>
          have hfmem : f ∈ c.pending := List.getElem?_mem hset
          have hfpid : ¬(f.pid = pid) := by
            intro hx
            exact h3 (hx ▸ List.mem_map_of_mem InFlight.pid hfmem)
          have hpe : pid ∉ pendingPids { c with
              pending := c.pending.eraseIdx i } := by
            show pid ∉ (c.pending.eraseIdx i).map InFlight.pid
            intro hx
            exact h3 ((List.eraseIdx_sublist c.pending i).map
              InFlight.pid |>.mem hx)
          have hc' : stepSettle opts beh c i
              = resume opts beh { c with pending := c.pending.eraseIdx i }
                  f := by
            simp [stepSettle, hset]
          show DeadPromise pid (stepSettle opts beh c i)
          rw [hc']
          cases hres : f.result with
          | ok r =>
              have hr : resume opts beh
                  { c with pending := c.pending.eraseIdx i } f
                  = beginIteration opts
                      { applyReducer opts beh
                          { c with pending := c.pending.eraseIdx i } r with
                        log := (applyReducer opts beh
                            { c with pending := c.pending.eraseIdx i }
                            r).log
                          ++ [.resolveP f.pid r] } := by
                simp [resume, hres]
              rw [hr]
              apply dead_beginIteration
              refine ⟨?_, ?_, ?_, ?_⟩
              · show pid < (applyReducer opts beh _ r).nextPid
                rw [applyReducer_nextPid]
                exact h1
              · show pid ∉ (applyReducer opts beh _ r).mailbox.map
                    QueuedMessage.pid
                rw [applyReducer_mailbox]
                exact h2
              · show pid ∉ (applyReducer opts beh _ r).pending.map
                    InFlight.pid
                rw [applyReducer_pending]
                exact hpe
              · show promiseSettleCount pid
                    ((applyReducer opts beh _ r).log ++ _) = 0
                rw [promiseSettleCount_append,
                  promiseSettleCount_applyReducer]
                simp [promiseSettleCount_cons, promiseSettleCount_nil,
                  settlesPid, beq_iff_eq, hfpid, h4]
          | error t =>
              have hr : resume opts beh
                  { c with pending := c.pending.eraseIdx i } f
                  = beginIteration opts
                      { c with
                        pending := c.pending.eraseIdx i
                        log := c.log
                          ++ ((if opts.hasOnError
                              then [.onErrorCall (coerceError t) f.message]
                              else [])
                            ++ [.rejectP f.pid (coerceError t)]) } := by
                simp [resume, hres, List.append_assoc]
              rw [hr]
              apply dead_beginIteration
              refine ⟨h1, h2, hpe, ?_⟩
              show promiseSettleCount pid (c.log ++ _) = 0
              cases ho : opts.hasOnError <;>
                simp [ho, promiseSettleCount_append,
                  promiseSettleCount_cons, promiseSettleCount_nil,
                  settlesPid, beq_iff_eq, hfpid, h4]
  | subscribe sub =>
      cases hb : beh sub c.state with
      | none =>
          have hc' : stepSubscribe beh c sub
              = { c with
                  subscribers := c.subscribers ++ [sub]
                  log := c.log ++ [.immediateEmit sub c.state] } := by
            simp [stepSubscribe, hb]
          show DeadPromise pid (stepSubscribe beh c sub)
          rw [hc']
          refine ⟨h1, h2, h3, ?_⟩
          show promiseSettleCount pid (c.log ++ _) = 0
          simp [promiseSettleCount_append, promiseSettleCount_cons,
            promiseSettleCount_nil, settlesPid, h4]
      | some t =>
          have hc' : stepSubscribe beh c sub
              = { c with
                  subscribers := c.subscribers ++ [sub]
                  log := c.log ++ [.immediateEmit sub c.state,
                    .subSinkError (coerceError t)] } := by
            simp [stepSubscribe, hb]
          show DeadPromise pid (stepSubscribe beh c sub)
          rw [hc']
          refine ⟨h1, h2, h3, ?_⟩
          show promiseSettleCount pid (c.log ++ _) = 0
          simp [promiseSettleCount_append, promiseSettleCount_cons,
            promiseSettleCount_nil, settlesPid, h4]
  | unsubscribe sub => exact ⟨h1, h2, h3, h4⟩
  | destroy =>
      refine ⟨h1, ?_, h3, h4⟩
      show pid ∉ List.map QueuedMessage.pid []
      simp

theorem deadPromise_run_ext [DecidableEq S] (opts : ActorOptions S M R)
    (beh : SubBehavior S) (acts ext : List (Action M)) (pid : Nat)
    (h : DeadPromise pid (run opts beh acts)) :
    DeadPromise pid (run opts beh (acts ++ ext)) := by
  rw [run, List.foldl_append]
  show DeadPromise pid
    (ext.foldl (fun c a => step opts beh c a) (run opts beh acts))
  induction ext generalizing acts with
  | nil => exact h
  | cons a as ih =>
      rw [List.foldl_cons]
      have hstep := deadPromise_step opts beh (run opts beh acts) a pid h
      have hra : step opts beh (run opts beh acts) a
          = run opts beh (acts ++ [a]) := (run_append_one opts beh acts a).symm
      rw [hra]
      exact ih (acts ++ [a]) (hra ▸ hstep)

/-- A `send` promise that can never settle in any continuation of the
given run. -/
def NeverSettles [DecidableEq S] (opts : ActorOptions S M R)
    (beh : SubBehavior S) (acts : List (Action M)) (pid : Nat) : Prop :=
  ∀ ext, promiseSettleCount pid (run opts beh (acts ++ ext)).log = 0

/-- C4 counterexample: the second of two `send`s issued on a live actor is
still in the mailbox when `destroy()` runs; `destroy` empties the mailbox
without settling the discarded entry, so the promise of that `send`
(promise id 1, allocated while the actor was not destroyed) never resolves
and never rejects, in any continuation whatsoever — contradicting
"exactly one of resolve/reject fires ... no send promise is left
permanently unsettled". -/
theorem send_promise_abandoned :
    Event.sendCalled 1 20 ∈ (run natOpts quietBeh [.send 10, .send 20]).log
    ∧ (run natOpts quietBeh [.send 10, .send 20]).destroyed = false
    ∧ NeverSettles natOpts quietBeh [.send 10, .send 20, .destroy] 1 := by
  refine ⟨by decide, by decide, ?_⟩
  intro ext
  exact (deadPromise_run_ext natOpts quietBeh
    [.send 10, .send 20, .destroy] ext 1
    ⟨by decide, by decide, by decide, by decide⟩).2.2.2

end ActorModel
